import Mathlib

/-!
# avr-i2c: the USI-driven I2C slave of `i2c.c` / `i2c.h`

A shallow embedding of the two interrupt handlers (`ISR(USI_START_vect)`,
`ISR(USI_OVF_vect)`), the acknowledge primitives and the default register hooks.

Conventions of the embedding

* Memory-mapped 8-bit registers (`DDRB`, `PORTB`, `USIDR`, `USISR`) and the
  globals of `i2c.c` are fields of `Machine`.  A register holds the byte the
  program last stored in it; the shift register `USIDR` is loaded by the
  hardware before an overflow interrupt, which `step` models by storing the
  byte of the event into `USIDR` before the handler runs.
* `PINB` is volatile: every read takes the next sample of a stream
  `pins : Nat → Nat` belonging to the handler activation.
* The busy-wait loops are run with a fuel bound; running out of fuel is the
  outcome `spinning`, calling a null function pointer is the outcome `crashed`.
* The 4-bit edge counter of the peripheral is hardware, not code of `i2c.c`;
  `usi_counter` models it from the specification text.
* `calls` and `pinb_reads` are ghost fields: the log of calls to `i2c_ack`,
  `i2c_nack` and the two hooks, and the number of `PINB` samples consumed by
  the current handler activation.
-/

namespace AvrI2c

/-! ## Bit names (`avr/io.h` for the ATtiny85, and `i2c.h`) -/

/-- Bit number of `PINB0` in `avr/io.h` (ATtiny85, the part named in `i2c.c`). -/
def PINB0 : Nat := 0
/-- Bit number of `PINB2` in `avr/io.h`. -/
def PINB2 : Nat := 2
/-- Bit number of `PB0` in `avr/io.h`. -/
def PB0 : Nat := 0
/-- Bit number of `PB2` in `avr/io.h`. -/
def PB2 : Nat := 2
/-- Bit number of `PB4` in `avr/io.h`. -/
def PB4 : Nat := 4
/-- Bit number of `DDB0` in `avr/io.h`. -/
def DDB0 : Nat := 0
/-- Bit number of `DDB2` in `avr/io.h`. -/
def DDB2 : Nat := 2
/-- Start condition flag of `USISR`. -/
def USISIF : Nat := 7
/-- Counter overflow flag of `USISR`. -/
def USIOIF : Nat := 6
/-- Stop condition flag of `USISR`. -/
def USIPF : Nat := 5
/-- Start condition interrupt enable of `USICR`. -/
def USISIE : Nat := 7
/-- Counter overflow interrupt enable of `USICR`. -/
def USIOIE : Nat := 6
/-- Wire mode bit 1 of `USICR`. -/
def USIWM1 : Nat := 5
/-- Wire mode bit 0 of `USICR`. -/
def USIWM0 : Nat := 4
/-- Clock source select bit 1 of `USICR`. -/
def USICS1 : Nat := 3

/-- Source: `#define PINSDA PINB0` -/
def PINSDA : Nat := PINB0
/-- Source: `#define PINSCL PINB2` -/
def PINSCL : Nat := PINB2
/-- Source: `#define PSDA PB0` -/
def PSDA : Nat := PB0
/-- Source: `#define PSCL PB2` -/
def PSCL : Nat := PB2
/-- Source: `#define DDSDA DDB0` -/
def DDSDA : Nat := DDB0
/-- Source: `#define DDSCL DDB2` -/
def DDSCL : Nat := DDB2

/-- Source: `static i2caddr_t myaddr = 0x2a;` -/
def myaddr : Nat := 0x2a

/-! ## Data model -/

/-- Source: `typedef enum i2cstate { ... } i2cstate_t;` of `i2c.h`, all 13 enumerators. -/
inductive i2cstate_t where
  | JUST_DEBUG
  | IDLE
  | SEQ_STARTED
  | SEQ_RESTARTED
  | ACKING_ADDRESS
  | REGISTER_SELECT
  | ACKING_REGISTER_SELECT
  | NACKING
  | READING_WRITE
  | ACKING_WRITE
  | ACKING_READ_REQUEST
  | WRITING
  | READING_ACK
  deriving DecidableEq, Repr

open i2cstate_t

/-- Ghost log entry: one call made by a handler.  `read sel ret` is a call of
`handle_read` made with `selected_reg = sel` that returned `ret`; `write sel v` is a
call `handle_write(v)` made with `selected_reg = sel`. -/
inductive Call where
  | ack
  | nack
  | read (sel : Nat) (ret : Nat)
  | write (sel : Nat) (v : Int)
  deriving DecidableEq, Repr

/-- Globals of `i2c.c` / `i2c.h` and the I/O registers the code touches. -/
structure Machine where
  /-- Source: `static volatile i2cstate_t i2c` -/
  i2c : i2cstate_t
  /-- Source: `static volatile i2caddr_t selected_reg` -/
  selected_reg : Nat
  /-- Source: `static volatile char debug_note` -/
  debug_note : Int
  /-- Source: `static volatile i2caddr_t last_addr_seen` -/
  last_addr_seen : Nat
  /-- Source: `static uint8_t registers[]`, eight slots -/
  registers : Fin 8 → Nat
  DDRB : Nat
  PORTB : Nat
  USIDR : Nat
  USISR : Nat
  USICR : Nat
  /-- ghost: calls made so far, oldest first -/
  calls : List Call
  /-- ghost: `PINB` samples consumed by the current handler activation -/
  pinb_reads : Nat

/-- Result of running a handler: it returned, it is still in a busy-wait loop when
the fuel ran out, or it called a null function pointer.  Each carries the machine
at that moment. -/
inductive Outcome where
  | returned (m : Machine)
  | spinning (m : Machine)
  | crashed (m : Machine)

/-- The machine carried by an outcome. -/
def Outcome.machine : Outcome → Machine
  | .returned m => m
  | .spinning m => m
  | .crashed m => m

/-- Sequencing: continue only after a return. -/
def Outcome.bind (o : Outcome) (f : Machine → Outcome) : Outcome :=
  match o with
  | .returned m => f m
  | .spinning m => .spinning m
  | .crashed m => .crashed m

/-- The function pointers `handle_read` and `handle_write` of `i2c.h` (a null
pointer is `none`), and the signedness of plain `char` chosen by the compiler. -/
structure Env where
  char_signed : Bool
  handle_read : Option (Machine → Nat × Machine)
  handle_write : Option (Int → Machine → Machine)

/-! ## C arithmetic helpers -/

/-- C logical negation `!x`: 1 when `x` is zero, else 0. -/
def c_not (x : Nat) : Nat := if x = 0 then 1 else 0

/-- Store of `reg | (1 << bit)` into an 8-bit register (`reg |= (1 << bit)`). -/
def setBit8 (reg bit : Nat) : Nat := (reg ||| (1 <<< bit)) % 256

/-- Store of `reg & ~(1 << bit)` into an 8-bit register (`reg &= ~(1 << bit)`);
`~` is taken on the 16-bit `int` of the AVR. -/
def clearBit8 (reg bit : Nat) : Nat := (reg &&& (0xFFFF ^^^ (1 <<< bit))) % 256

/-- Conversion of an `unsigned char` value to `char` (argument of `handle_write`):
the same 8 bits, read as a signed 8-bit number when `char` is signed. -/
def to_char (char_signed : Bool) (b : Nat) : Int :=
  if char_signed && decide (128 ≤ b % 256) then (b % 256 : Int) - 256 else (b % 256 : Int)

/-- Conversion of a `char` value to `uint8_t` (store into `registers[]`). -/
def to_uint8 (c : Int) : Nat := (c % 256).toNat

/-! ## Register file and default hooks -/

/-- Source: `int valid_register(int r) { return r < 8; }` -/
def valid_register (r : Int) : Int := if r < 8 then 1 else 0

/-- The index `selected_reg & 7`. -/
def reg_index (m : Machine) : Fin 8 :=
  ⟨m.selected_reg &&& 7, Nat.lt_succ_of_le Nat.and_le_right⟩

/-- Source: `unsigned char default_handle_read() { return registers[selected_reg & 7]; }` -/
def default_handle_read (m : Machine) : Nat × Machine :=
  (m.registers (reg_index m), m)

/-- Source: `void default_handle_write(char v) { registers[selected_reg & 7] = v; }` -/
def default_handle_write (v : Int) (m : Machine) : Machine :=
  { m with registers := Function.update m.registers (reg_index m) (to_uint8 v) }

/-- The pointer `handle_read` as `i2c.c` line 28 initialises it. -/
def handle_read_init : Option (Machine → Nat × Machine) := some default_handle_read

/-- The pointer `handle_write`: `i2c.h` line 15 declares it without initialiser and
no line of `i2c.c` defines or assigns it, so it is zero-initialised (null). -/
def handle_write_init : Option (Int → Machine → Machine) := none

/-- The pointer `handler_write` of `i2c.c` line 34, the only pointer initialised with
`&default_handle_write`; no handler calls through it. -/
def handler_write : Option (Int → Machine → Machine) := some default_handle_write

/-- Environment of a program that assigns neither override point. -/
def boot_env (char_signed : Bool) : Env :=
  { char_signed := char_signed, handle_read := handle_read_init,
    handle_write := handle_write_init }

/-- Environment in which both override points hold the default hooks. -/
def default_env (char_signed : Bool) : Env :=
  { char_signed := char_signed, handle_read := some default_handle_read,
    handle_write := some default_handle_write }

/-! ## Volatile reads of `PINB` -/

/-- One read of `PINB`: the next sample of the stream, as a byte. -/
def read_PINB (pins : Nat → Nat) (m : Machine) : Nat × Machine :=
  (pins m.pinb_reads % 256, { m with pinb_reads := m.pinb_reads + 1 })

/-! ## `ISR(USI_START_vect)` -/

/-- The state switch at the head of `ISR(USI_START_vect)` (lines 45-58): the case
`READING_WRITE`, and `default` for every other value. -/
def start_switch (m : Machine) : Machine :=
  if m.i2c = READING_WRITE then { m with i2c := SEQ_RESTARTED }
  else { m with debug_note := 0, i2c := SEQ_STARTED }

/-- Source: `while (PINB & (1<<PINSCL));` (line 65). -/
def scl_settle : Nat → (Nat → Nat) → Machine → Outcome
  | 0, _, m => .spinning m
  | fuel + 1, pins, m =>
    let r := read_PINB pins m
    if r.1 &&& (1 <<< PINSCL) ≠ 0 then scl_settle fuel pins r.2 else .returned r.2

/-- Lines 68-69: release SDA, clear the flags and the counter. -/
def start_finish (m : Machine) : Machine :=
  { m with DDRB := clearBit8 m.DDRB DDSDA,
           USISR := ((1 <<< USISIF) ||| (1 <<< USIOIF) ||| (1 <<< USIPF)) % 256 }

/-- Source: `ISR(USI_START_vect)`. -/
def USI_START_vect (fuel : Nat) (pins : Nat → Nat) (m : Machine) : Outcome :=
  (scl_settle fuel pins (start_switch { m with pinb_reads := 0 })).bind
    fun m1 => .returned (start_finish m1)

/-! ## `i2c_ack`, `i2c_nack` -/

/-- Source: `void i2c_ack()` (lines 80-88). -/
def i2c_ack (m : Machine) : Machine :=
  { m with USIDR := 0, DDRB := setBit8 m.DDRB DDSDA, USISR := 14,
           calls := m.calls ++ [Call.ack] }

/-- Source: `void i2c_nack()` (lines 90-93). -/
def i2c_nack (m : Machine) : Machine :=
  { m with USISR := 14, calls := m.calls ++ [Call.nack] }

/-! ## `ISR(USI_OVF_vect)` -/

/-- End of the handler, line 219: `USISR |= (1 << USIOIF);` -/
def ack_ovf (m : Machine) : Machine :=
  { m with USISR := setBit8 m.USISR USIOIF }

/-- Condition of the first wait loop, line 147: `!PINB & (1<<PINSCL)`
(unary `!` binds tighter than `&`). -/
def wait_rise_cond (p : Nat) : Nat := c_not p &&& (1 <<< PINSCL)

/-- Left operand of `&&` on line 148: `PINB & (1<<PINSCL)`. -/
def poll_cond_lhs (p : Nat) : Nat := p &&& (1 <<< PINSCL)

/-- Right operand of `&&` on line 148: `!PINB & (1<<PINSDA)`. -/
def poll_cond_rhs (p : Nat) : Nat := c_not p &&& (1 <<< PINSDA)

/-- Left operand of `&&` on line 151: `PINB & (1<<PINSCL)`. -/
def stop_cond_lhs (p : Nat) : Nat := p &&& (1 <<< PINSCL)

/-- Right operand of `&&` on line 151: `PINB & (1<<PINSDA)`. -/
def stop_cond_rhs (p : Nat) : Nat := p &&& (1 <<< PINSDA)

/-- Source: `while (!PINB & (1<<PINSCL));` (line 147). -/
def wait_rise : Nat → (Nat → Nat) → Machine → Outcome
  | 0, _, m => .spinning m
  | fuel + 1, pins, m =>
    let r := read_PINB pins m
    if wait_rise_cond r.1 ≠ 0 then wait_rise fuel pins r.2 else .returned r.2

/-- Body of the second loop: the `if`/`else` of lines 151-159.  Line 148 has no
terminating `;`, so this statement is the body of that `while`. -/
def classify (pins : Nat → Nat) (m : Machine) : Machine :=
  let c := read_PINB pins m
  if stop_cond_lhs c.1 ≠ 0 then
    let d := read_PINB pins c.2
    if stop_cond_rhs d.1 ≠ 0 then
      { d.2 with i2c := IDLE, PORTB := clearBit8 d.2.PORTB PB4 }
    else
      { d.2 with i2c := READING_WRITE }
  else
    { c.2 with i2c := READING_WRITE }

/-- Source: `while (PINB & (1<<PINSCL) && !PINB & (1<<PINSDA)) if (...) {...} else {...}`
(lines 148-159); `&&` reads `PINB` a second time only when its left operand is
non-zero. -/
def poll_stop : Nat → (Nat → Nat) → Machine → Outcome
  | 0, _, m => .spinning m
  | fuel + 1, pins, m =>
    let a := read_PINB pins m
    if poll_cond_lhs a.1 ≠ 0 then
      let b := read_PINB pins a.2
      if poll_cond_rhs b.1 ≠ 0 then poll_stop fuel pins (classify pins b.2)
      else .returned b.2
    else .returned a.2

/-- Source: `ISR(USI_OVF_vect)` (lines 95-220).  Every case but `ACKING_WRITE` leaves the
switch by `break` and runs line 219; `ACKING_WRITE` returns on line 161. -/
def USI_OVF_vect (env : Env) (fuel : Nat) (pins : Nat → Nat) (m0 : Machine) : Outcome :=
  let m := { m0 with pinb_reads := 0 }
  let dr := m.USIDR % 256
  match m.i2c with
  | JUST_DEBUG => .returned (ack_ovf m)
  | IDLE => .returned (ack_ovf m)
  | SEQ_STARTED =>
    let m1 := { m with last_addr_seen := dr >>> 1 }
    if dr >>> 1 = myaddr then
      .returned (ack_ovf (i2c_ack { m1 with i2c := ACKING_ADDRESS }))
    else
      .returned (ack_ovf { m1 with i2c := IDLE })
  | ACKING_ADDRESS =>
    .returned (ack_ovf { m with DDRB := clearBit8 m.DDRB DDSDA, i2c := REGISTER_SELECT })
  | REGISTER_SELECT =>
    if valid_register (dr : Int) ≠ 0 then
      .returned (ack_ovf (i2c_ack { m with selected_reg := dr, i2c := ACKING_REGISTER_SELECT }))
    else
      .returned (ack_ovf (i2c_nack { m with i2c := NACKING }))
  | ACKING_REGISTER_SELECT =>
    .returned (ack_ovf { m with DDRB := clearBit8 m.DDRB DDSDA, i2c := READING_WRITE })
  | READING_WRITE =>
    match env.handle_write with
    | none => .crashed m
    | some hw =>
      let v := to_char env.char_signed dr
      let m1 := { hw v m with calls := m.calls ++ [Call.write m.selected_reg v] }
      .returned (ack_ovf (i2c_ack { m1 with i2c := ACKING_WRITE }))
  | ACKING_WRITE =>
    let m1 := { m with PORTB := setBit8 m.PORTB PB4 }
    let m2 := { m1 with DDRB := clearBit8 m1.DDRB DDSDA }
    let m3 := { m2 with USISR := setBit8 m2.USISR USIOIF }
    (wait_rise fuel pins m3).bind fun m4 => poll_stop fuel pins m4
  | SEQ_RESTARTED =>
    if dr >>> 1 = myaddr then
      .returned (ack_ovf (i2c_ack { m with i2c := ACKING_READ_REQUEST }))
    else
      .returned (ack_ovf { m with i2c := IDLE })
  | ACKING_READ_REQUEST =>
    match env.handle_read with
    | none => .crashed m
    | some hr =>
      let r := hr m
      let m1 := { r.2 with calls := m.calls ++ [Call.read m.selected_reg r.1] }
      .returned (ack_ovf { m1 with USIDR := r.1 % 256, USISR := 0, i2c := WRITING })
  | WRITING =>
    .returned (ack_ovf { m with i2c := READING_ACK, DDRB := clearBit8 m.DDRB DDSDA,
                                USIDR := 0, USISR := 14 })
  | READING_ACK =>
    if dr ≠ 0 then
      .returned (ack_ovf { m with i2c := IDLE })
    else
      match env.handle_read with
      | none => .crashed m
      | some hr =>
        let r := hr m
        let m1 := { r.2 with calls := m.calls ++ [Call.read m.selected_reg r.1] }
        .returned (ack_ovf { m1 with USIDR := r.1 % 256, USISR := 0,
                                     DDRB := setBit8 m1.DDRB DDSDA, i2c := WRITING })
  | NACKING =>
    .returned (ack_ovf { m with DDRB := clearBit8 m.DDRB DDSDA, i2c := IDLE })

/-! ## `i2c_init` -/

/-- Source: `void i2c_init()` (lines 222-232). -/
def i2c_init (m : Machine) : Machine :=
  let m1 := { m with DDRB := setBit8 m.DDRB DDSCL }
  let m2 := { m1 with DDRB := clearBit8 m1.DDRB DDSDA }
  let m3 := { m2 with PORTB := (m2.PORTB ||| ((1 <<< PSCL) ||| (1 <<< PSDA))) % 256 }
  { m3 with i2c := IDLE,
            USICR := ((1 <<< USISIE) ||| (1 <<< USIOIE) ||| (1 <<< USIWM1) |||
                      (1 <<< USIWM0) ||| (1 <<< USICS1)) % 256 }

/-! ## Bus events -/

/-- An interrupt delivered to the slave: a start condition, or a counter overflow
with the byte `dr` the hardware has shifted into `USIDR`.  `pins` is the stream of
`PINB` samples seen during the activation. -/
inductive Event where
  | start (pins : Nat → Nat)
  | ovf (dr : Nat) (pins : Nat → Nat)

/-- Deliver one interrupt. -/
def step (env : Env) (fuel : Nat) (e : Event) (m : Machine) : Outcome :=
  match e with
  | .start pins => USI_START_vect fuel pins m
  | .ovf dr pins => USI_OVF_vect env fuel pins { m with USIDR := dr % 256 }

/-- Deliver a sequence of interrupts, stopping at the first handler that does not
return. -/
def run (env : Env) (fuel : Nat) : List Event → Machine → Outcome
  | [], m => .returned m
  | e :: es, m => (step env fuel e m).bind (run env fuel es)

/-- Whether SDA is driven: the `DDSDA` bit of `DDRB`. -/
def sda_driven (m : Machine) : Bool := m.DDRB.testBit DDSDA

/-! ## Bus scenarios used by the statements -/

/-- The clock line is sampled low among the first `fuel` samples. -/
def scl_low_within (fuel : Nat) (pins : Nat → Nat) : Prop :=
  ∃ n, n < fuel ∧ pins n % 256 &&& (1 <<< PINSCL) = 0

/-- No clock pulse follows: once the clock line has been sampled high it is not
sampled low again (the master ends the transfer with STOP and leaves the bus idle). -/
def scl_stays_high (pins : Nat → Nat) : Prop :=
  ∀ i, pins i % 256 &&& (1 <<< PINSCL) ≠ 0 → pins (i + 1) % 256 &&& (1 <<< PINSCL) ≠ 0

/-- Globals as initialised by `i2c.c` / `i2c.h`, I/O registers at their reset value 0. -/
def reset_machine : Machine :=
  { i2c := IDLE, selected_reg := 0, debug_note := 0, last_addr_seen := 0,
    registers := fun _ => 0, DDRB := 0, PORTB := 0, USIDR := 0, USISR := 0, USICR := 0,
    calls := [], pinb_reads := 0 }

/-- Overflow interrupts only: one per pair (data-register byte, pin stream). -/
def ovfs (l : List (Nat × (Nat → Nat))) : List Event :=
  l.map fun e => Event.ovf e.1 e.2

/-- START, address byte `addr`, ACK-period overflow, register byte `r`, ACK-period
overflow.  `s` is the pin stream of the START, `o i` the pin stream of the i-th
overflow and `d i` the content of `USIDR` at the i-th ACK-period overflow. -/
def select_seq (s : Nat → Nat) (o : Nat → Nat → Nat) (d : Nat → Nat) (addr r : Nat) :
    List Event :=
  [.start s, .ovf addr (o 0), .ovf (d 0) (o 1), .ovf r (o 2), .ovf (d 1) (o 3)]

/-- The WRITE event sequence for register `r` and data byte `v`; `q` is the pin stream
seen by the last ACK-period overflow. -/
def write_seq (s : Nat → Nat) (o : Nat → Nat → Nat) (d : Nat → Nat) (q : Nat → Nat)
    (r v : Nat) : List Event :=
  select_seq s o d (myaddr <<< 1) r ++ [.ovf v (o 4), .ovf (d 2) q]

/-- The READ event sequence for register `r` up to the overflow that loads the first
byte; `s2` is the pin stream of the repeated START. -/
def read_seq (s s2 : Nat → Nat) (o : Nat → Nat → Nat) (d : Nat → Nat) (r : Nat) :
    List Event :=
  select_seq s o d (myaddr <<< 1) r ++
    [.start s2, .ovf (myaddr <<< 1 ||| 1) (o 4), .ovf (d 2) (o 5)]

/-- Number of calls of the read-provider in a call log. -/
def read_calls (l : List Call) : Nat :=
  l.countP fun c => match c with
    | .read _ _ => true
    | _ => false

/-- The calls of the write-consumer in a call log, oldest first, each as
(`selected_reg` at the call, argument). -/
def write_calls (l : List Call) : List (Nat × Int) :=
  l.filterMap fun c => match c with
    | .write sel v => some (sel, v)
    | _ => none

/-- Whether `i2c_ack` occurs in a call log. -/
def ack_called (l : List Call) : Bool := l.contains Call.ack

/-- One round of a READ per entry `(w, pw, pa)`: the overflow after the byte was
shifted out (`USIDR` then holds `w`), and the overflow after the acknowledge bit was
sampled as 0 (ACK). -/
def ack_rounds : List (Nat × (Nat → Nat) × (Nat → Nat)) → List Event
  | [] => []
  | e :: l => .ovf e.1 e.2.1 :: .ovf 0 e.2.2 :: ack_rounds l

/-- Pin stream with both lines low in every sample. -/
def pins_low : Nat → Nat := fun _ => 0

/-- Pin stream of an idle bus: SCL and SDA high in every sample. -/
def pins_idle : Nat → Nat := fun _ => (1 <<< PINSCL) ||| (1 <<< PINSDA)

/-- Scenario: WRITE of 0x55 to register 3 ended by STOP, then READ of register 3, the
slave being in `READING_WRITE` when the first START arrives. -/
def round_trip_from_READING_WRITE : Outcome :=
  run (default_env true) 1
    (write_seq pins_low (fun _ => pins_low) (fun _ => 0) pins_idle 3 0x55 ++
      read_seq pins_low pins_low (fun _ => pins_low) (fun _ => 0) 3)
    { reset_machine with i2c := READING_WRITE }

/-- Scenario: the same WRITE and READ from the reset state. -/
def round_trip_from_reset : Outcome :=
  run (default_env true) 1
    (write_seq pins_low (fun _ => pins_low) (fun _ => 0) pins_idle 3 0x55 ++
      read_seq pins_low pins_low (fun _ => pins_low) (fun _ => 0) 3)
    reset_machine

/-- Scenario: register 0 selected from reset, then two data bytes 1 and 2, each
followed by its ACK-period overflow, with the clock line sampled low throughout (no
STOP, no START). -/
def two_byte_write : Outcome :=
  run (default_env true) 1
    (write_seq pins_low (fun _ => pins_low) (fun _ => 0) pins_low 0 1 ++
      [.ovf 2 pins_low, .ovf 0 pins_low])
    reset_machine

/-- Scenario: WRITE of 0x55 to register 3 from reset, no STOP seen during the last ACK
period, then a START. -/
def restart_after_data_byte : Outcome :=
  run (default_env true) 1
    (write_seq pins_low (fun _ => pins_low) (fun _ => 0) pins_low 3 0x55 ++
      [.start pins_low])
    reset_machine

/-- Scenario: as `restart_after_data_byte`, then the address byte with the read bit. -/
def restart_then_address : Outcome :=
  run (default_env true) 1
    (write_seq pins_low (fun _ => pins_low) (fun _ => 0) pins_low 3 0x55 ++
      [.start pins_low, .ovf (myaddr <<< 1 ||| 1) pins_low])
    reset_machine

/-! ## Definitions for the statements on the counter, recovery and invariants -/

/-- Modelled from the spec: the programmable edge counter of the shift/counter
peripheral.  It is the low nibble of `USISR`, counts one per clock edge and
overflows, raising the overflow interrupt, when it wraps from 15 to 0.
`usi_counter usisr edges` is its value after `edges` further clock edges. -/
def usi_counter (usisr edges : Nat) : Nat := (usisr % 16 + edges) % 16

/-- Whether a logged call was made with a register index in bounds (`ack` and `nack`
carry no index). -/
def call_index_ok : Call → Bool
  | .read sel _ => decide (sel < 8)
  | .write sel _ => decide (sel < 8)
  | _ => true

/-- Every hook call of the log was made with `selected_reg < 8`. -/
def hook_calls_valid (l : List Call) : Bool := l.all call_index_ok

/-- The states in which the slave drives SDA: the four ACK periods and `WRITING`. -/
def drives_sda : i2cstate_t → Bool
  | ACKING_ADDRESS => true
  | ACKING_REGISTER_SELECT => true
  | ACKING_WRITE => true
  | ACKING_READ_REQUEST => true
  | WRITING => true
  | _ => false

/-- The states in which the slave is idle or receiving. -/
def listens : i2cstate_t → Bool
  | IDLE => true
  | SEQ_STARTED => true
  | SEQ_RESTARTED => true
  | REGISTER_SELECT => true
  | READING_WRITE => true
  | READING_ACK => true
  | NACKING => true
  | _ => false

/-- Scenario: START, matching address byte, ACK-period overflow, register byte 9 and
one more overflow with `USIDR = 0`, the slave being in `READING_WRITE` at the START. -/
def reject_from_READING_WRITE : Outcome :=
  run (default_env true) 1
    (select_seq pins_low (fun _ => pins_low) (fun _ => 0) (myaddr <<< 1) 9)
    { reset_machine with i2c := READING_WRITE }

/-! ## Definitions for observing the read-provider -/

/-- Two machines agree on everything `ISR(USI_OVF_vect)` leaves alone during a read
phase: it assigns only `i2c`, `USIDR`, `USISR`, `DDRB` there (and the ghost fields). -/
def same_outside_read_phase (x y : Machine) : Prop :=
  x.registers = y.registers ∧ x.selected_reg = y.selected_reg ∧
    x.debug_note = y.debug_note ∧ x.last_addr_seen = y.last_addr_seen ∧
    x.PORTB = y.PORTB ∧ x.USICR = y.USICR

/-- A read-provider with a side effect, used as a concrete override: it returns
register slot 0 and then increments that slot (as a byte). -/
def counting_read (m : Machine) : Nat × Machine :=
  (m.registers 0,
    { m with registers := Function.update m.registers 0 ((m.registers 0 + 1) % 256) })

/-- Environment whose read override point holds `counting_read`. -/
def counting_env : Env :=
  { char_signed := true, handle_read := some counting_read, handle_write := none }

/-! ## Bit-level and loop lemmas -/

theorem clearBit8_eq (x : Nat) : clearBit8 x DDSDA = (x &&& 0xFFFE) % 2 ^ 8 := by
  simp [clearBit8, DDSDA, DDB0]

theorem testBit_clearBit8_self (x : Nat) : (clearBit8 x DDSDA).testBit DDSDA = false := by
  rw [clearBit8_eq, Nat.testBit_mod_two_pow, Nat.testBit_and]
  simp [DDSDA, DDB0]

theorem testBit_clearBit8_other (x k : Nat) (hk : k < 8) (hne : k ≠ DDSDA) :
    (clearBit8 x DDSDA).testBit k = x.testBit k := by
  rw [clearBit8_eq, Nat.testBit_mod_two_pow, Nat.testBit_and]
  simp only [DDSDA, DDB0] at hne
  have hc : Nat.testBit 65534 k = true := by
    interval_cases k <;> first | exact absurd rfl hne | decide
  simp [hc, hk]

theorem testBit_setBit8_self (x : Nat) : (setBit8 x DDSDA).testBit DDSDA = true := by
  have : setBit8 x DDSDA = (x ||| 1) % 2 ^ 8 := by simp [setBit8, DDSDA, DDB0]
  rw [this, Nat.testBit_mod_two_pow, Nat.testBit_or]
  simp [DDSDA, DDB0]

theorem wait_rise_cond_zero (p : Nat) : wait_rise_cond p = 0 := by
  unfold wait_rise_cond c_not PINSCL PINB2
  split <;> decide

theorem scl_settle_spec (pins : Nat → Nat) :
    ∀ (fuel i n : Nat), n < fuel → pins (i + n) % 256 &&& (1 <<< PINSCL) = 0 →
      ∃ k, k ≤ n ∧ pins (i + k) % 256 &&& (1 <<< PINSCL) = 0 ∧
        (∀ j, j < k → pins (i + j) % 256 &&& (1 <<< PINSCL) ≠ 0) ∧
        ∀ m : Machine, m.pinb_reads = i →
          scl_settle fuel pins m = .returned { m with pinb_reads := i + k + 1 } := by
  intro fuel
  induction fuel with
  | zero => intro i n hn; omega
  | succ fuel ih =>
    intro i n hn hlow
    by_cases hi : pins i % 256 &&& (1 <<< PINSCL) = 0
    · refine ⟨0, Nat.zero_le _, by simpa using hi, by intro j hj; omega, ?_⟩
      intro m hm
      subst hm
      simp [scl_settle, read_PINB, hi]
    · have hn0 : n ≠ 0 := by
        rintro rfl
        exact hi (by simpa using hlow)
      obtain ⟨n', rfl⟩ := Nat.exists_eq_succ_of_ne_zero hn0
      have hlow' : pins (i + 1 + n') % 256 &&& (1 <<< PINSCL) = 0 := by
        have : i + 1 + n' = i + (n' + 1) := by omega
        rw [this]; exact hlow
      obtain ⟨k, hk, hkl, hkh, hrun⟩ := ih (i + 1) n' (by omega) hlow'
      refine ⟨k + 1, by omega, ?_, ?_, ?_⟩
      · have : i + (k + 1) = i + 1 + k := by omega
        rw [this]; exact hkl
      · intro j hj
        cases j with
        | zero => simpa using hi
        | succ j =>
          have : i + (j + 1) = i + 1 + j := by omega
          rw [this]; exact hkh j (by omega)
      · intro m hm
        subst hm
        have := hrun { m with pinb_reads := m.pinb_reads + 1 } rfl
        simp [scl_settle, read_PINB, hi, this]
        omega

theorem USI_START_eq {fuel : Nat} {pins : Nat → Nat} (h : scl_low_within fuel pins) :
    ∃ k, ∀ m : Machine, USI_START_vect fuel pins m =
      .returned (start_finish { start_switch m with pinb_reads := k }) := by
  obtain ⟨n, hn, hlow⟩ := h
  obtain ⟨k, -, -, -, hrun⟩ := scl_settle_spec pins fuel 0 n hn (by simpa using hlow)
  refine ⟨0 + k + 1, ?_⟩
  intro m
  have hs : (start_switch { m with pinb_reads := 0 }).pinb_reads = 0 := by
    unfold start_switch; split <;> rfl
  rw [USI_START_vect, hrun _ hs]
  by_cases h1 : m.i2c = READING_WRITE <;> simp [Outcome.bind, start_switch, start_finish, h1]

theorem to_uint8_to_char (cs : Bool) (b : Nat) : to_uint8 (to_char cs b) = b % 256 := by
  unfold to_uint8 to_char
  split <;> omega

theorem to_char_mod (cs : Bool) (b : Nat) : to_char cs (b % 256) = to_char cs b := by
  simp [to_char]

theorem and_seven_of_lt {r : Nat} (hr : r < 8) : r &&& 7 = r := by
  interval_cases r <;> rfl

theorem wait_rise_succ (fuel : Nat) (pins : Nat → Nat) (m : Machine) :
    wait_rise (fuel + 1) pins m = .returned { m with pinb_reads := m.pinb_reads + 1 } := by
  simp [wait_rise, read_PINB, wait_rise_cond_zero]

theorem poll_stop_quiet (fuel : Nat) (pins : Nat → Nat) (m : Machine)
    (h : pins m.pinb_reads % 256 &&& (1 <<< PINSCL) = 0 ∨ pins (m.pinb_reads + 1) % 256 ≠ 0) :
    ∃ k, poll_stop (fuel + 1) pins m = .returned { m with pinb_reads := k } := by
  by_cases ha : pins m.pinb_reads % 256 &&& (1 <<< PINSCL) = 0
  · exact ⟨m.pinb_reads + 1, by simp [poll_stop, read_PINB, poll_cond_lhs, ha]⟩
  · have hb : pins (m.pinb_reads + 1) % 256 ≠ 0 := h.resolve_left ha
    exact ⟨m.pinb_reads + 1 + 1,
      by simp [poll_stop, read_PINB, poll_cond_lhs, poll_cond_rhs, c_not, ha, hb]⟩

theorem nonzero_of_scl_high {p : Nat} (h : p &&& (1 <<< PINSCL) ≠ 0) : p ≠ 0 := by
  rintro rfl
  simp at h

/-- In `ACKING_WRITE`, when the condition of the second loop is false at its first
evaluation, the handler returns without assigning `i2c`. -/
theorem ovf_ACKING_WRITE_quiet (env : Env) (fuel : Nat) (pins : Nat → Nat) (m : Machine)
    (hst : m.i2c = ACKING_WRITE)
    (h : pins 1 % 256 &&& (1 <<< PINSCL) = 0 ∨ pins 2 % 256 ≠ 0) :
    ∃ k, USI_OVF_vect env (fuel + 1) pins m =
      .returned { m with pinb_reads := k, PORTB := setBit8 m.PORTB PB4,
                         DDRB := clearBit8 m.DDRB DDSDA,
                         USISR := setBit8 m.USISR USIOIF } := by
  obtain ⟨k, hk⟩ := poll_stop_quiet fuel pins
    { m with pinb_reads := 0 + 1, PORTB := setBit8 m.PORTB PB4,
             DDRB := clearBit8 m.DDRB DDSDA, USISR := setBit8 m.USISR USIOIF } (by simpa using h)
  refine ⟨k, ?_⟩
  simp only [USI_OVF_vect, hst, wait_rise_succ, Outcome.bind]
  simpa [hst] using hk

theorem quiet_of_scl_stays_high {pins : Nat → Nat} (h : scl_stays_high pins) :
    pins 1 % 256 &&& (1 <<< PINSCL) = 0 ∨ pins 2 % 256 ≠ 0 := by
  by_cases h1 : pins 1 % 256 &&& (1 <<< PINSCL) = 0
  · exact Or.inl h1
  · exact Or.inr (nonzero_of_scl_high (h 1 h1))

theorem pos_of_scl_low_within {fuel : Nat} {pins : Nat → Nat} (h : scl_low_within fuel pins) :
    ∃ f, fuel = f + 1 := by
  obtain ⟨n, hn, -⟩ := h
  exact ⟨fuel - 1, by omega⟩

theorem run_append (env : Env) (fuel : Nat) (es1 es2 : List Event) (m : Machine) :
    run env fuel (es1 ++ es2) m = (run env fuel es1 m).bind (run env fuel es2) := by
  induction es1 generalizing m with
  | nil => rfl
  | cons e es ih =>
    simp only [List.cons_append, run]
    cases step env fuel e m <;> simp [Outcome.bind, ih]

/-! ## Transition lemmas -/

theorem step_start_eq (env : Env) {fuel : Nat} {pins : Nat → Nat}
    (h : scl_low_within fuel pins) :
    ∃ k, ∀ m : Machine, step env fuel (.start pins) m =
      .returned (start_finish { start_switch m with pinb_reads := k }) := by
  obtain ⟨k, hk⟩ := USI_START_eq h
  exact ⟨k, fun m => by simp [step, hk]⟩

/-- A register selection after a fresh START. -/
theorem select_seq_spec (env : Env) (fuel : Nat) (s : Nat → Nat) (o : Nat → Nat → Nat)
    (d : Nat → Nat) (addr r : Nat) (m : Machine) (hs : scl_low_within fuel s)
    (hst : m.i2c ≠ READING_WRITE) (ha : (addr % 256) >>> 1 = myaddr) (hr : r < 8) :
    ∃ m1, run env fuel (select_seq s o d addr r) m = .returned m1 ∧
      m1.i2c = READING_WRITE ∧ m1.selected_reg = r ∧ m1.registers = m.registers ∧
      m1.DDRB.testBit DDSDA = false ∧ m1.calls = m.calls ++ [Call.ack, Call.ack] := by
  obtain ⟨k, hk⟩ := step_start_eq env hs
  have hr256 : r % 256 = r := by omega
  have hv : valid_register ((r : Nat) : Int) ≠ 0 := by
    unfold valid_register
    split <;> omega
  simp only [select_seq, run, hk, Outcome.bind]
  simp [step, USI_OVF_vect, start_switch, start_finish, hst, ha, hr256, hv, ack_ovf, i2c_ack,
    testBit_clearBit8_self]

theorem step_ovf_ACKING_WRITE_quiet (env : Env) (fuel dr : Nat) (pins : Nat → Nat)
    (m : Machine) (hf : 0 < fuel) (hst : m.i2c = ACKING_WRITE)
    (h : pins 1 % 256 &&& (1 <<< PINSCL) = 0 ∨ pins 2 % 256 ≠ 0) :
    ∃ k, step env fuel (.ovf dr pins) m =
      .returned { m with USIDR := dr % 256, pinb_reads := k, PORTB := setBit8 m.PORTB PB4,
                         DDRB := clearBit8 m.DDRB DDSDA,
                         USISR := setBit8 m.USISR USIOIF } := by
  obtain ⟨f, rfl⟩ : ∃ f, fuel = f + 1 := ⟨fuel - 1, by omega⟩
  obtain ⟨k, hk⟩ := ovf_ACKING_WRITE_quiet env f pins { m with USIDR := dr % 256 } hst h
  exact ⟨k, by simpa [step] using hk⟩

/-- One data byte with the default write hook, then its ACK-period overflow during
which the second polling loop finds its condition false at once. -/
theorem write_tail_quiet (cs : Bool) (fuel v d : Nat) (o q : Nat → Nat) (m : Machine)
    (hf : 0 < fuel) (hst : m.i2c = READING_WRITE)
    (hq : q 1 % 256 &&& (1 <<< PINSCL) = 0 ∨ q 2 % 256 ≠ 0) :
    ∃ m1, run (default_env cs) fuel [.ovf v o, .ovf d q] m = .returned m1 ∧
      m1.i2c = ACKING_WRITE ∧ m1.selected_reg = m.selected_reg ∧
      m1.registers = Function.update m.registers (reg_index m) (v % 256) ∧
      m1.calls = m.calls ++ [Call.write m.selected_reg (to_char cs v), Call.ack] ∧
      m1.DDRB.testBit DDSDA = false := by
  have h1 : ∃ m2, step (default_env cs) fuel (.ovf v o) m = .returned m2 ∧
      m2.i2c = ACKING_WRITE ∧ m2.selected_reg = m.selected_reg ∧
      m2.registers = Function.update m.registers (reg_index m) (v % 256) ∧
      m2.calls = m.calls ++ [Call.write m.selected_reg (to_char cs v), Call.ack] := by
    simp [step, USI_OVF_vect, hst, default_env, default_handle_write, ack_ovf, i2c_ack,
      to_uint8_to_char, reg_index, to_char_mod]
  obtain ⟨m2, hm2, hi, hsel, hreg, hcalls⟩ := h1
  obtain ⟨k, hk⟩ := step_ovf_ACKING_WRITE_quiet (default_env cs) fuel d q m2 hf hi hq
  simp [run, hm2, hk, Outcome.bind, hi, hsel, hreg, hcalls, testBit_clearBit8_self]

/-- One data byte with the default write hook, then its ACK-period overflow on a bus
where no clock pulse follows. -/
theorem write_tail_spec (cs : Bool) (fuel v d : Nat) (o q : Nat → Nat) (m : Machine)
    (hf : 0 < fuel) (hst : m.i2c = READING_WRITE) (hq : scl_stays_high q) :
    ∃ m1, run (default_env cs) fuel [.ovf v o, .ovf d q] m = .returned m1 ∧
      m1.i2c = ACKING_WRITE ∧ m1.selected_reg = m.selected_reg ∧
      m1.registers = Function.update m.registers (reg_index m) (v % 256) := by
  obtain ⟨m1, h1, h2, h3, h4, -, -⟩ :=
    write_tail_quiet cs fuel v d o q m hf hst (quiet_of_scl_stays_high hq)
  exact ⟨m1, h1, h2, h3, h4⟩

/-- Repeated START in `READING_WRITE`, matching address byte, ACK-period overflow:
the first byte is loaded from the default read hook. -/
theorem read_tail_spec (cs : Bool) (fuel addr d : Nat) (s o1 o2 : Nat → Nat) (m : Machine)
    (hs : scl_low_within fuel s) (hst : m.i2c = READING_WRITE)
    (ha : (addr % 256) >>> 1 = myaddr) :
    ∃ m1, run (default_env cs) fuel [.start s, .ovf addr o1, .ovf d o2] m = .returned m1 ∧
      m1.i2c = WRITING ∧ m1.selected_reg = m.selected_reg ∧ m1.registers = m.registers ∧
      m1.USIDR = m.registers (reg_index m) % 256 := by
  obtain ⟨k, hk⟩ := step_start_eq (default_env cs) hs
  simp only [run, hk, Outcome.bind]
  simp [step, USI_OVF_vect, start_switch, start_finish, hst, ha, ack_ovf, i2c_ack, default_env,
    default_handle_read, reg_index]

theorem step_ovf_IDLE (env : Env) (fuel dr : Nat) (pins : Nat → Nat) (m : Machine)
    (hst : m.i2c = IDLE) :
    step env fuel (.ovf dr pins) m =
      .returned { m with USIDR := dr % 256, pinb_reads := 0,
                         USISR := setBit8 m.USISR USIOIF } := by
  simp [step, USI_OVF_vect, hst, ack_ovf]

/-- In `IDLE` overflow interrupts are ignored. -/
theorem run_ovfs_IDLE (env : Env) (fuel : Nat) (l : List (Nat × (Nat → Nat))) :
    ∀ m : Machine, m.i2c = IDLE →
      ∃ m1, run env fuel (ovfs l) m = .returned m1 ∧ m1.i2c = IDLE ∧ m1.DDRB = m.DDRB ∧
        m1.PORTB = m.PORTB ∧ m1.calls = m.calls ∧ m1.registers = m.registers ∧
        m1.selected_reg = m.selected_reg := by
  induction l with
  | nil => intro m hst; exact ⟨m, rfl, hst, rfl, rfl, rfl, rfl, rfl⟩
  | cons e l ih =>
    intro m hst
    obtain ⟨m1, h1, h2, h3, h4, h5, h6, h7⟩ :=
      ih { m with USIDR := e.1 % 256, pinb_reads := 0, USISR := setBit8 m.USISR USIOIF } hst
    refine ⟨m1, ?_, h2, h3, h4, h5, h6, h7⟩
    simp only [ovfs, List.map_cons, run, step_ovf_IDLE env fuel e.1 e.2 m hst, Outcome.bind]
    exact h1

theorem address_mismatch_aux (env : Env) (fuel : Nat) (m : Machine) (b : Nat) (hb : b < 256)
    (hne : b >>> 1 ≠ myaddr) (hst : m.i2c = SEQ_STARTED ∨ m.i2c = SEQ_RESTARTED)
    (o : Nat → Nat) :
    ∃ m1, step env fuel (.ovf b o) m = .returned m1 ∧ m1.i2c = IDLE ∧ m1.DDRB = m.DDRB ∧
      m1.calls = m.calls ∧ m1.registers = m.registers ∧ m1.selected_reg = m.selected_reg := by
  have hb256 : b % 256 = b := Nat.mod_eq_of_lt hb
  rcases hst with hst | hst <;>
    simp [step, USI_OVF_vect, hst, hb256, hne, ack_ovf]

/-! ## Further lemmas: read rounds, frames, side conditions of the witnesses -/

theorem scl_low_within_pins_low : scl_low_within 1 pins_low := ⟨0, by decide, by decide⟩

theorem scl_stays_high_pins_idle : scl_stays_high pins_idle := by
  intro i _
  show ((1 <<< PINSCL) ||| (1 <<< PINSDA)) % 256 &&& (1 <<< PINSCL) ≠ 0
  decide

theorem read_calls_append_read (l : List Call) (sel ret : Nat) :
    read_calls (l ++ [Call.read sel ret]) = read_calls l + 1 := by
  simp [read_calls, List.countP_append]

/-- In `ACKING_READ_REQUEST` the first byte is fetched from the read-provider. -/
theorem step_ovf_ACKING_READ_REQUEST (env : Env) (hr : Machine → Nat × Machine)
    (henv : env.handle_read = some hr) (fuel d : Nat) (p : Nat → Nat) (m : Machine)
    (hst : m.i2c = ACKING_READ_REQUEST) :
    ∃ m1, step env fuel (.ovf d p) m = .returned m1 ∧ m1.i2c = WRITING ∧
      read_calls m1.calls = read_calls m.calls + 1 := by
  simp [step, USI_OVF_vect, hst, henv, ack_ovf, read_calls_append_read]

/-- One acknowledged round: byte shifted out, acknowledge bit sampled as 0. -/
theorem ack_round_spec (env : Env) (hr : Machine → Nat × Machine)
    (henv : env.handle_read = some hr) (fuel w : Nat) (pw pa : Nat → Nat) (m : Machine)
    (hst : m.i2c = WRITING) :
    ∃ m1, run env fuel [.ovf w pw, .ovf 0 pa] m = .returned m1 ∧ m1.i2c = WRITING ∧
      read_calls m1.calls = read_calls m.calls + 1 := by
  simp [run, step, USI_OVF_vect, hst, henv, ack_ovf, Outcome.bind, read_calls_append_read]

/-- The refused round: byte shifted out, acknowledge bit sampled non-zero. -/
theorem nack_round_spec (env : Env) (fuel w a : Nat) (pw pa : Nat → Nat) (m : Machine)
    (hst : m.i2c = WRITING) (ha : a % 256 ≠ 0) :
    ∃ m1, run env fuel [.ovf w pw, .ovf a pa] m = .returned m1 ∧ m1.i2c = IDLE ∧
      m1.DDRB.testBit DDSDA = false ∧ m1.calls = m.calls := by
  simp [run, step, USI_OVF_vect, hst, ack_ovf, Outcome.bind, ha, testBit_clearBit8_self]

theorem ack_rounds_spec (env : Env) (hr : Machine → Nat × Machine)
    (henv : env.handle_read = some hr) (fuel : Nat)
    (l : List (Nat × (Nat → Nat) × (Nat → Nat))) :
    ∀ m : Machine, m.i2c = WRITING →
      ∃ m1, run env fuel (ack_rounds l) m = .returned m1 ∧ m1.i2c = WRITING ∧
        read_calls m1.calls = read_calls m.calls + l.length := by
  induction l with
  | nil => intro m hst; exact ⟨m, rfl, hst, rfl⟩
  | cons e l ih =>
    intro m hst
    obtain ⟨a, ha, hai, hac⟩ := ack_round_spec env hr henv fuel e.1 e.2.1 e.2.2 m hst
    obtain ⟨b, hb, hbi, hbc⟩ := ih a hai
    refine ⟨b, ?_, hbi, ?_⟩
    · have : ack_rounds (e :: l) = [.ovf e.1 e.2.1, .ovf 0 e.2.2] ++ ack_rounds l := rfl
      rw [this, run_append, ha]
      exact hb
    · rw [hbc, hac, List.length_cons]; omega

theorem scl_settle_frame (pins : Nat → Nat) :
    ∀ (fuel : Nat) (m : Machine),
      ∃ k, (scl_settle fuel pins m).machine = { m with pinb_reads := k } := by
  intro fuel
  induction fuel with
  | zero => intro m; exact ⟨m.pinb_reads, rfl⟩
  | succ fuel ih =>
    intro m
    by_cases h : pins m.pinb_reads % 256 &&& (1 <<< PINSCL) = 0
    · exact ⟨m.pinb_reads + 1, by simp [scl_settle, read_PINB, h, Outcome.machine]⟩
    · obtain ⟨k, hk⟩ := ih { m with pinb_reads := m.pinb_reads + 1 }
      exact ⟨k, by simpa [scl_settle, read_PINB, h] using hk⟩

theorem wait_rise_frame (pins : Nat → Nat) (fuel : Nat) (m : Machine) :
    ∃ k, wait_rise fuel pins m = .returned { m with pinb_reads := k } ∨
      wait_rise fuel pins m = .spinning { m with pinb_reads := k } := by
  cases fuel with
  | zero => exact ⟨m.pinb_reads, Or.inr rfl⟩
  | succ fuel => exact ⟨m.pinb_reads + 1, Or.inl (wait_rise_succ fuel pins m)⟩

theorem classify_frame (pins : Nat → Nat) (m : Machine) :
    ∃ k st pb, classify pins m = { m with pinb_reads := k, i2c := st, PORTB := pb } := by
  unfold classify
  by_cases hc : stop_cond_lhs (read_PINB pins m).1 ≠ 0
  · by_cases hd : stop_cond_rhs (read_PINB pins (read_PINB pins m).2).1 ≠ 0
    · exact ⟨_, _, _, by rw [if_pos hc, if_pos hd]; rfl⟩
    · exact ⟨_, _, m.PORTB, by rw [if_pos hc, if_neg hd]; rfl⟩
  · exact ⟨_, _, m.PORTB, by rw [if_neg hc]; rfl⟩

theorem poll_stop_frame (pins : Nat → Nat) :
    ∀ (fuel : Nat) (m : Machine),
      ∃ k st pb, (poll_stop fuel pins m).machine =
        { m with pinb_reads := k, i2c := st, PORTB := pb } := by
  intro fuel
  induction fuel with
  | zero => intro m; exact ⟨m.pinb_reads, m.i2c, m.PORTB, rfl⟩
  | succ fuel ih =>
    intro m
    by_cases ha : poll_cond_lhs (read_PINB pins m).1 ≠ 0
    · by_cases hb : poll_cond_rhs (read_PINB pins (read_PINB pins m).2).1 ≠ 0
      · obtain ⟨k1, st1, pb1, h1⟩ := classify_frame pins (read_PINB pins (read_PINB pins m).2).2
        obtain ⟨k, st, pb, h⟩ := ih (classify pins (read_PINB pins (read_PINB pins m).2).2)
        refine ⟨k, st, pb, ?_⟩
        rw [poll_stop]
        simp only []
        rw [if_pos ha, if_pos hb, h, h1]
        rfl
      · exact ⟨_, m.i2c, m.PORTB, by rw [poll_stop]; simp only []; rw [if_pos ha, if_neg hb]; rfl⟩
    · exact ⟨_, m.i2c, m.PORTB, by rw [poll_stop]; simp only []; rw [if_neg ha]; rfl⟩

/-- What `ISR(USI_START_vect)` can change, whether or not it has returned. -/
theorem USI_START_frame (fuel : Nat) (pins : Nat → Nat) (m : Machine) :
    (USI_START_vect fuel pins m).machine.selected_reg = m.selected_reg ∧
    (USI_START_vect fuel pins m).machine.registers = m.registers ∧
    (USI_START_vect fuel pins m).machine.calls = m.calls := by
  obtain ⟨k, hk⟩ := scl_settle_frame pins fuel (start_switch { m with pinb_reads := 0 })
  have hsw : (start_switch { m with pinb_reads := 0 }).selected_reg = m.selected_reg ∧
      (start_switch { m with pinb_reads := 0 }).registers = m.registers ∧
      (start_switch { m with pinb_reads := 0 }).calls = m.calls := by
    unfold start_switch
    split <;> exact ⟨rfl, rfl, rfl⟩
  unfold USI_START_vect
  cases h : scl_settle fuel pins (start_switch { m with pinb_reads := 0 }) with
  | returned x =>
    rw [h] at hk
    simp only [Outcome.machine] at hk
    simp only [Outcome.bind, Outcome.machine, start_finish, hk]
    exact hsw
  | spinning x =>
    rw [h] at hk
    simp only [Outcome.machine] at hk
    simp only [Outcome.bind, Outcome.machine, hk]
    exact hsw
  | crashed x =>
    rw [h] at hk
    simp only [Outcome.machine] at hk
    simp only [Outcome.bind, Outcome.machine, hk]
    exact hsw

/-- What the `ACKING_WRITE` case can change, whether or not it has returned. -/
theorem ovf_ACKING_WRITE_frame (env : Env) (fuel : Nat) (pins : Nat → Nat) (m : Machine)
    (hst : m.i2c = ACKING_WRITE) :
    (USI_OVF_vect env fuel pins m).machine.selected_reg = m.selected_reg ∧
    (USI_OVF_vect env fuel pins m).machine.registers = m.registers ∧
    (USI_OVF_vect env fuel pins m).machine.calls = m.calls ∧
    (USI_OVF_vect env fuel pins m).machine.DDRB = clearBit8 m.DDRB DDSDA := by
  have hU : USI_OVF_vect env fuel pins m =
      (wait_rise fuel pins
        { m with pinb_reads := 0, PORTB := setBit8 m.PORTB PB4,
                 DDRB := clearBit8 m.DDRB DDSDA, USISR := setBit8 m.USISR USIOIF }).bind
        fun m4 => poll_stop fuel pins m4 := by
    simp only [USI_OVF_vect, hst]
  obtain ⟨k, hk | hk⟩ := wait_rise_frame pins fuel
    { m with pinb_reads := 0, PORTB := setBit8 m.PORTB PB4, DDRB := clearBit8 m.DDRB DDSDA,
             USISR := setBit8 m.USISR USIOIF }
  · rw [hU, hk]
    simp only [Outcome.bind]
    obtain ⟨k2, st, pb, h2⟩ := poll_stop_frame pins fuel
      { m with pinb_reads := k, PORTB := setBit8 m.PORTB PB4, DDRB := clearBit8 m.DDRB DDSDA,
               USISR := setBit8 m.USISR USIOIF }
    rw [h2]
    exact ⟨rfl, rfl, rfl, rfl⟩
  · rw [hU, hk]
    exact ⟨rfl, rfl, rfl, rfl⟩

theorem step_ovf_selected_reg (env : Env)
    (hrd : ∀ hr, env.handle_read = some hr → ∀ x, (hr x).2.selected_reg = x.selected_reg)
    (hwr : ∀ hw, env.handle_write = some hw → ∀ v x, (hw v x).selected_reg = x.selected_reg)
    (fuel : Nat) (m : Machine) (dr : Nat) (pins : Nat → Nat) :
    (step env fuel (.ovf dr pins) m).machine.selected_reg =
      if m.i2c = REGISTER_SELECT ∧ dr % 256 < 8 then dr % 256 else m.selected_reg := by
  cases hst : m.i2c
  case ACKING_WRITE =>
    have := (ovf_ACKING_WRITE_frame env fuel pins { m with USIDR := dr % 256 } hst).1
    simpa [step] using this
  case READING_WRITE =>
    cases hw : env.handle_write with
    | none => simp [step, USI_OVF_vect, hst, hw, Outcome.machine]
    | some f =>
      simp [step, USI_OVF_vect, hst, hw, Outcome.machine, ack_ovf, i2c_ack, hwr f hw]
  case ACKING_READ_REQUEST =>
    cases hr : env.handle_read with
    | none => simp [step, USI_OVF_vect, hst, hr, Outcome.machine]
    | some f =>
      simp [step, USI_OVF_vect, hst, hr, Outcome.machine, ack_ovf, hrd f hr]
  case READING_ACK =>
    cases hr : env.handle_read with
    | none =>
      by_cases hd : dr % 256 = 0 <;> simp [step, USI_OVF_vect, hst, hr, Outcome.machine, hd, ack_ovf]
    | some f =>
      by_cases hd : dr % 256 = 0 <;>
        simp [step, USI_OVF_vect, hst, hr, Outcome.machine, hd, ack_ovf, hrd f hr]
  case REGISTER_SELECT =>
    by_cases h8 : dr % 256 < 8
    · have hv : valid_register ((dr : Int) % 256) ≠ 0 := by
        unfold valid_register
        split <;> omega
      simp [step, USI_OVF_vect, hst, Outcome.machine, ack_ovf, i2c_ack, h8, hv]
    · have hv : valid_register ((dr : Int) % 256) = 0 := by
        unfold valid_register
        split <;> omega
      simp [step, USI_OVF_vect, hst, Outcome.machine, ack_ovf, i2c_nack, h8, hv]
  case SEQ_STARTED =>
    by_cases ha : (dr % 256) >>> 1 = myaddr <;>
      simp [step, USI_OVF_vect, hst, Outcome.machine, ack_ovf, i2c_ack, ha]
  case SEQ_RESTARTED =>
    by_cases ha : (dr % 256) >>> 1 = myaddr <;>
      simp [step, USI_OVF_vect, hst, Outcome.machine, ack_ovf, i2c_ack, ha]
  all_goals simp [step, USI_OVF_vect, hst, Outcome.machine, ack_ovf]

theorem default_read_keeps_selected_reg (cs : Bool) :
    ∀ hr, (default_env cs).handle_read = some hr →
      ∀ x, (hr x).2.selected_reg = x.selected_reg := by
  intro hr h x
  simp only [default_env, Option.some.injEq] at h
  subst h
  rfl

theorem default_write_keeps_selected_reg (cs : Bool) :
    ∀ hw, (default_env cs).handle_write = some hw →
      ∀ v x, (hw v x).selected_reg = x.selected_reg := by
  intro hw h v x
  simp only [default_env, Option.some.injEq] at h
  subst h
  rfl

/-! ## Lemmas for the counter, recovery and invariant statements -/

theorem setBit8_testBit (x b : Nat) (k : Fin 8) :
    (setBit8 x b).testBit k.val = (x.testBit k.val || decide (k.val = b)) := by
  have h : setBit8 x b = (x ||| 1 <<< b) % 2 ^ 8 := rfl
  rw [h, Nat.testBit_mod_two_pow, Nat.testBit_or, Nat.testBit_shiftLeft]
  have hk := k.isLt
  by_cases hb : k.val = b
  · subst hb
    simp [hk]
  · by_cases hle : b ≤ k.val
    · have : k.val - b ≠ 0 := by omega
      simp [hk, hb, hle, Nat.testBit_one_eq_true_iff_self_eq_zero, this]
    · simp [hk, hb, hle]

theorem clearBit8_testBit (x b : Nat) (k : Fin 8) :
    (clearBit8 x b).testBit k.val = (x.testBit k.val && !decide (k.val = b)) := by
  have h : clearBit8 x b = (x &&& ((2 ^ 16 - 1) ^^^ 1 <<< b)) % 2 ^ 8 := rfl
  rw [h, Nat.testBit_mod_two_pow, Nat.testBit_and, Nat.testBit_xor, Nat.testBit_shiftLeft,
    Nat.testBit_two_pow_sub_one]
  have hk := k.isLt
  have hk16 : k.val < 16 := by omega
  have h1 : Nat.testBit 1 (k.val - b) = decide (k.val - b = 0) := by
    rw [Bool.eq_iff_iff]
    simp [Nat.testBit_one_eq_true_iff_self_eq_zero]
  rw [h1]
  clear h
  cases x.testBit k.val <;> simp [hk, hk16]
  by_cases hb : k.val = b
  · simp [hb]
  · by_cases hle : b ≤ k.val
    · have : k.val - b ≠ 0 := by omega
      simp [hb, hle, this]
    · simp [hb, hle]

theorem xor_one_shiftRight (b : Nat) : (b ^^^ 1) >>> 1 = b >>> 1 := by
  apply Nat.eq_of_testBit_eq
  intro j
  have h1 : Nat.testBit 1 (1 + j) = false := by
    rw [Bool.eq_false_iff]
    intro h
    have := Nat.testBit_one_eq_true_iff_self_eq_zero.mp h
    omega
  rw [Nat.testBit_shiftRight, Nat.testBit_shiftRight, Nat.testBit_xor, h1]
  simp

theorem xor_one_lt {b : Nat} (hb : b < 256) : b ^^^ 1 < 256 :=
  Nat.xor_lt_two_pow (n := 8) hb (by decide)

theorem shiftRight_one_eq_myaddr_iff (b : Nat) : b >>> 1 = myaddr ↔ b = 0x54 ∨ b = 0x55 := by
  rw [Nat.shiftRight_eq_div_pow]
  simp only [myaddr]
  omega

theorem scl_settle_spins (pins : Nat → Nat) :
    ∀ (fuel : Nat) (m : Machine),
      (∀ j, j < fuel → pins (m.pinb_reads + j) % 256 &&& (1 <<< PINSCL) ≠ 0) →
      scl_settle fuel pins m = .spinning { m with pinb_reads := m.pinb_reads + fuel } := by
  intro fuel
  induction fuel with
  | zero => intro m _; rfl
  | succ fuel ih =>
    intro m h
    have h0 : pins m.pinb_reads % 256 &&& (1 <<< PINSCL) ≠ 0 := by simpa using h 0 (by omega)
    have hrest : ∀ j, j < fuel →
        pins (({ m with pinb_reads := m.pinb_reads + 1 } : Machine).pinb_reads + j) % 256 &&&
          (1 <<< PINSCL) ≠ 0 := by
      intro j hj
      have := h (j + 1) (by omega)
      have e : m.pinb_reads + (j + 1) = m.pinb_reads + 1 + j := by omega
      rw [e] at this
      exact this
    have := ih { m with pinb_reads := m.pinb_reads + 1 } hrest
    rw [scl_settle]
    simp only [read_PINB]
    rw [if_pos h0, this]
    simp only [Outcome.spinning.injEq, Machine.mk.injEq, true_and]
    omega

theorem start_switch_frame (m : Machine) :
    (start_switch m).DDRB = m.DDRB ∧ (start_switch m).USISR = m.USISR ∧
      (start_switch m).pinb_reads = m.pinb_reads := by
  unfold start_switch
  split <;> exact ⟨rfl, rfl, rfl⟩

/-- A register selection with an index of 8 or more after a fresh START is refused
and the slave is back in `IDLE` after the NACK period. -/
theorem reject_seq_spec (env : Env) (fuel : Nat) (s : Nat → Nat) (o : Nat → Nat → Nat)
    (d : Nat → Nat) (addr r : Nat) (m : Machine) (hs : scl_low_within fuel s)
    (hst : m.i2c ≠ READING_WRITE) (ha : (addr % 256) >>> 1 = myaddr) (h8 : 8 ≤ r)
    (h255 : r ≤ 255) :
    ∃ m1, run env fuel (select_seq s o d addr r) m = .returned m1 ∧
      m1.i2c = IDLE ∧ m1.selected_reg = m.selected_reg ∧ m1.registers = m.registers ∧
      m1.DDRB.testBit DDSDA = false ∧ m1.calls = m.calls ++ [Call.ack, Call.nack] := by
  obtain ⟨k, hk⟩ := step_start_eq env hs
  have hr256 : r % 256 = r := by omega
  have hv : valid_register ((r : Nat) : Int) = 0 := by
    unfold valid_register
    split <;> omega
  simp only [select_seq, run, hk, Outcome.bind]
  simp [step, USI_OVF_vect, start_switch, start_finish, hst, ha, hr256, hv, ack_ovf, i2c_ack,
    i2c_nack, testBit_clearBit8_self]

/-- A data byte in `READING_WRITE` with the default write hook. -/
theorem step_ovf_READING_WRITE_default (cs : Bool) (fuel v : Nat) (o : Nat → Nat)
    (m : Machine) (hst : m.i2c = READING_WRITE) :
    ∃ m1, step (default_env cs) fuel (.ovf v o) m = .returned m1 ∧
      m1.i2c = ACKING_WRITE ∧ m1.selected_reg = m.selected_reg ∧
      m1.registers = Function.update m.registers (reg_index m) (v % 256) ∧
      m1.calls = m.calls ++ [Call.write m.selected_reg (to_char cs v), Call.ack] ∧
      m1.DDRB.testBit DDSDA = true := by
  simp [step, USI_OVF_vect, hst, default_env, default_handle_write, ack_ovf, i2c_ack,
    to_uint8_to_char, reg_index, to_char_mod, testBit_setBit8_self]

theorem write_calls_append (l1 l2 : List Call) :
    write_calls (l1 ++ l2) = write_calls l1 ++ write_calls l2 := by
  simp [write_calls, List.filterMap_append]

/-- Entry of the read phase with the default read hook. -/
theorem step_ovf_ACKING_READ_REQUEST_default (cs : Bool) (fuel d : Nat) (p : Nat → Nat)
    (m : Machine) (hst : m.i2c = ACKING_READ_REQUEST) :
    ∃ m1, step (default_env cs) fuel (.ovf d p) m = .returned m1 ∧ m1.i2c = WRITING ∧
      m1.USIDR = m.registers (reg_index m) % 256 ∧ m1.registers = m.registers ∧
      m1.selected_reg = m.selected_reg ∧
      m1.calls = m.calls ++ [Call.read m.selected_reg (m.registers (reg_index m))] := by
  simp [step, USI_OVF_vect, hst, default_env, default_handle_read, ack_ovf, reg_index]

/-- One acknowledged round with the default read hook. -/
theorem ack_round_default (cs : Bool) (fuel w : Nat) (pw pa : Nat → Nat) (m : Machine)
    (hst : m.i2c = WRITING) :
    ∃ m1, run (default_env cs) fuel [.ovf w pw, .ovf 0 pa] m = .returned m1 ∧
      m1.i2c = WRITING ∧ m1.USIDR = m.registers (reg_index m) % 256 ∧
      m1.registers = m.registers ∧ m1.selected_reg = m.selected_reg ∧
      m1.calls = m.calls ++ [Call.read m.selected_reg (m.registers (reg_index m))] := by
  simp [run, step, USI_OVF_vect, hst, default_env, default_handle_read, ack_ovf, Outcome.bind,
    reg_index]

theorem reg_index_congr {a b : Machine} (h : a.selected_reg = b.selected_reg) :
    reg_index a = reg_index b := by
  simp [reg_index, h]

theorem ack_rounds_default (cs : Bool) (fuel : Nat)
    (l : List (Nat × (Nat → Nat) × (Nat → Nat))) :
    ∀ m : Machine, m.i2c = WRITING → m.USIDR = m.registers (reg_index m) % 256 →
      ∃ m1, run (default_env cs) fuel (ack_rounds l) m = .returned m1 ∧ m1.i2c = WRITING ∧
        m1.USIDR = m.registers (reg_index m) % 256 ∧ m1.registers = m.registers ∧
        m1.selected_reg = m.selected_reg ∧
        m1.calls = m.calls ++
          List.replicate l.length (Call.read m.selected_reg (m.registers (reg_index m))) := by
  induction l with
  | nil => intro m hst hu; exact ⟨m, rfl, hst, hu, rfl, rfl, by simp⟩
  | cons e l ih =>
    intro m hst hu
    obtain ⟨a, ha, hai, hau, har, has, hac⟩ := ack_round_default cs fuel e.1 e.2.1 e.2.2 m hst
    have hidx : reg_index a = reg_index m := reg_index_congr has
    obtain ⟨b, hb, hbi, hbu, hbr, hbs, hbc⟩ := ih a hai (by rw [har, hidx]; exact hau)
    refine ⟨b, ?_, hbi, ?_, ?_, ?_, ?_⟩
    · have : ack_rounds (e :: l) = [.ovf e.1 e.2.1, .ovf 0 e.2.2] ++ ack_rounds l := rfl
      rw [this, run_append, ha]
      exact hb
    · rw [hbu, har, hidx]
    · rw [hbr, har]
    · rw [hbs, has]
    · rw [hbc, hac, has, har, hidx, List.length_cons, List.replicate_succ, List.append_assoc]
      rfl

theorem hook_calls_valid_append (l1 l2 : List Call) :
    hook_calls_valid (l1 ++ l2) = (hook_calls_valid l1 && hook_calls_valid l2) := by
  simp [hook_calls_valid, List.all_append]

theorem hook_calls_valid_cons (c : Call) (l : List Call) :
    hook_calls_valid (c :: l) = (call_index_ok c && hook_calls_valid l) := by
  simp [hook_calls_valid]

theorem hook_calls_valid_nil : hook_calls_valid [] = true := rfl

/-- The call log stays index-valid over one interrupt, whatever the outcome. -/
theorem step_calls_valid (env : Env) (fuel : Nat) (e : Event) (m : Machine)
    (hsel : m.selected_reg < 8) (hlog : hook_calls_valid m.calls = true) :
    hook_calls_valid (step env fuel e m).machine.calls = true := by
  cases e with
  | start pins =>
    have := (USI_START_frame fuel pins m).2.2
    simp only [step]
    rw [this]
    exact hlog
  | ovf dr pins =>
    cases hst : m.i2c
    case ACKING_WRITE =>
      have := (ovf_ACKING_WRITE_frame env fuel pins { m with USIDR := dr % 256 } hst).2.2.1
      simp only [step]
      rw [this]
      exact hlog
    case READING_WRITE =>
      cases hw : env.handle_write with
      | none => simpa [step, USI_OVF_vect, hst, hw, Outcome.machine] using hlog
      | some f =>
        simp [step, USI_OVF_vect, hst, hw, Outcome.machine, ack_ovf, i2c_ack,
          hook_calls_valid_append, hook_calls_valid_cons, hook_calls_valid_nil, hlog, call_index_ok,
          hsel]
    case ACKING_READ_REQUEST =>
      cases hr : env.handle_read with
      | none => simpa [step, USI_OVF_vect, hst, hr, Outcome.machine] using hlog
      | some f =>
        simp [step, USI_OVF_vect, hst, hr, Outcome.machine, ack_ovf,
          hook_calls_valid_append, hook_calls_valid_cons, hook_calls_valid_nil, hlog, call_index_ok,
          hsel]
    case READING_ACK =>
      cases hr : env.handle_read with
      | none =>
        by_cases hd : dr % 256 = 0 <;>
          simpa [step, USI_OVF_vect, hst, hr, Outcome.machine, hd, ack_ovf] using hlog
      | some f =>
        by_cases hd : dr % 256 = 0
        · simp [step, USI_OVF_vect, hst, hr, Outcome.machine, hd, ack_ovf,
            hook_calls_valid_append, hook_calls_valid_cons, hook_calls_valid_nil, hlog, call_index_ok,
          hsel]
        · simpa [step, USI_OVF_vect, hst, hr, Outcome.machine, hd, ack_ovf] using hlog
    case REGISTER_SELECT =>
      by_cases hv : valid_register ((dr : Int) % 256) = 0 <;>
        simp [step, USI_OVF_vect, hst, Outcome.machine, ack_ovf, i2c_ack, i2c_nack, hv,
          hook_calls_valid_append, hook_calls_valid_cons, hook_calls_valid_nil, hlog, call_index_ok]
    case SEQ_STARTED =>
      by_cases ha : (dr % 256) >>> 1 = myaddr <;>
        simp [step, USI_OVF_vect, hst, Outcome.machine, ack_ovf, i2c_ack, ha,
          hook_calls_valid_append, hook_calls_valid_cons, hook_calls_valid_nil, hlog, call_index_ok]
    case SEQ_RESTARTED =>
      by_cases ha : (dr % 256) >>> 1 = myaddr <;>
        simp [step, USI_OVF_vect, hst, Outcome.machine, ack_ovf, i2c_ack, ha,
          hook_calls_valid_append, hook_calls_valid_cons, hook_calls_valid_nil, hlog, call_index_ok]
    all_goals simpa [step, USI_OVF_vect, hst, Outcome.machine, ack_ovf] using hlog

/-- The register index stays in bounds over one interrupt, whatever the outcome. -/
theorem step_selected_reg_lt (env : Env)
    (hrd : ∀ hr, env.handle_read = some hr → ∀ x, (hr x).2.selected_reg = x.selected_reg)
    (hwr : ∀ hw, env.handle_write = some hw → ∀ v x, (hw v x).selected_reg = x.selected_reg)
    (fuel : Nat) (e : Event) (m : Machine) (hsel : m.selected_reg < 8) :
    (step env fuel e m).machine.selected_reg < 8 := by
  cases e with
  | start pins =>
    have := (USI_START_frame fuel pins m).1
    simp only [step]
    rw [this]
    exact hsel
  | ovf dr pins =>
    rw [step_ovf_selected_reg env hrd hwr fuel m dr pins]
    split
    · rename_i h
      exact h.2
    · exact hsel

theorem run_index_valid (env : Env)
    (hrd : ∀ hr, env.handle_read = some hr → ∀ x, (hr x).2.selected_reg = x.selected_reg)
    (hwr : ∀ hw, env.handle_write = some hw → ∀ v x, (hw v x).selected_reg = x.selected_reg)
    (fuel : Nat) (es : List Event) :
    ∀ m : Machine, m.selected_reg < 8 → hook_calls_valid m.calls = true →
      (run env fuel es m).machine.selected_reg < 8 ∧
        hook_calls_valid (run env fuel es m).machine.calls = true := by
  induction es with
  | nil => intro m hsel hlog; exact ⟨hsel, hlog⟩
  | cons e es ih =>
    intro m hsel hlog
    have h1 := step_selected_reg_lt env hrd hwr fuel e m hsel
    have h2 := step_calls_valid env fuel e m hsel hlog
    simp only [run]
    cases hstep : step env fuel e m with
    | returned x =>
      rw [hstep] at h1 h2
      exact ih x h1 h2
    | spinning x =>
      rw [hstep] at h1 h2
      exact ⟨h1, h2⟩
    | crashed x =>
      rw [hstep] at h1 h2
      exact ⟨h1, h2⟩

theorem USI_START_returned_sda (fuel : Nat) (pins : Nat → Nat) (m m1 : Machine)
    (h : USI_START_vect fuel pins m = .returned m1) :
    m1.DDRB.testBit DDSDA = false ∧ (m1.i2c = SEQ_STARTED ∨ m1.i2c = SEQ_RESTARTED) := by
  obtain ⟨k, hk⟩ := scl_settle_frame pins fuel (start_switch { m with pinb_reads := 0 })
  have hsw : (start_switch { m with pinb_reads := 0 }).i2c = SEQ_STARTED ∨
      (start_switch { m with pinb_reads := 0 }).i2c = SEQ_RESTARTED := by
    unfold start_switch
    split
    · exact Or.inr rfl
    · exact Or.inl rfl
  unfold USI_START_vect at h
  cases hs : scl_settle fuel pins (start_switch { m with pinb_reads := 0 }) with
  | returned x =>
    rw [hs] at h hk
    simp only [Outcome.bind, Outcome.returned.injEq] at h
    simp only [Outcome.machine] at hk
    subst h
    refine ⟨testBit_clearBit8_self _, ?_⟩
    rw [hk]
    exact hsw
  | spinning x =>
    rw [hs] at h
    simp [Outcome.bind] at h
  | crashed x =>
    rw [hs] at h
    simp [Outcome.bind] at h

/-- One returned interrupt keeps: if DDSDA is set, the state is a driving one. -/
theorem step_sda_inv (env : Env) (fuel : Nat) (e : Event) (m m1 : Machine)
    (hinv : m.DDRB.testBit DDSDA = true → drives_sda m.i2c = true)
    (h : step env fuel e m = .returned m1) :
    m1.DDRB.testBit DDSDA = true → drives_sda m1.i2c = true := by
  cases e with
  | start pins =>
    have := (USI_START_returned_sda fuel pins m m1 h).1
    intro h2
    rw [this] at h2
    exact absurd h2 (by decide)
  | ovf dr pins =>
    cases hst : m.i2c
    case ACKING_WRITE =>
      have hd := (ovf_ACKING_WRITE_frame env fuel pins { m with USIDR := dr % 256 } hst).2.2.2
      simp only [step] at h
      rw [h] at hd
      simp only [Outcome.machine] at hd
      intro h2
      rw [hd, testBit_clearBit8_self] at h2
      exact absurd h2 (by decide)
    case READING_WRITE =>
      cases hw : env.handle_write with
      | none => simp [step, USI_OVF_vect, hst, hw] at h
      | some f =>
        simp [step, USI_OVF_vect, hst, hw] at h
        subst h
        simp [ack_ovf, i2c_ack, drives_sda]
    case ACKING_READ_REQUEST =>
      cases hr : env.handle_read with
      | none => simp [step, USI_OVF_vect, hst, hr] at h
      | some f =>
        simp [step, USI_OVF_vect, hst, hr] at h
        subst h
        simp [ack_ovf, drives_sda]
    case READING_ACK =>
      rw [hst] at hinv
      by_cases hd : dr % 256 = 0
      · cases hr : env.handle_read with
        | none => simp [step, USI_OVF_vect, hst, hr, hd] at h
        | some f =>
          simp [step, USI_OVF_vect, hst, hr, hd] at h
          subst h
          simp [ack_ovf, drives_sda]
      · simp [step, USI_OVF_vect, hst, hd] at h
        subst h
        simpa [ack_ovf, drives_sda] using hinv
    case REGISTER_SELECT =>
      rw [hst] at hinv
      by_cases hv : valid_register ((dr : Int) % 256) = 0
      · simp [step, USI_OVF_vect, hst, hv] at h
        subst h
        simpa [ack_ovf, i2c_nack, drives_sda] using hinv
      · simp [step, USI_OVF_vect, hst, hv] at h
        subst h
        simp [ack_ovf, i2c_ack, drives_sda]
    case SEQ_STARTED =>
      rw [hst] at hinv
      by_cases ha : (dr % 256) >>> 1 = myaddr
      · simp [step, USI_OVF_vect, hst, ha] at h
        subst h
        simp [ack_ovf, i2c_ack, drives_sda]
      · simp [step, USI_OVF_vect, hst, ha] at h
        subst h
        simpa [ack_ovf, drives_sda] using hinv
    case SEQ_RESTARTED =>
      rw [hst] at hinv
      by_cases ha : (dr % 256) >>> 1 = myaddr
      · simp [step, USI_OVF_vect, hst, ha] at h
        subst h
        simp [ack_ovf, i2c_ack, drives_sda]
      · simp [step, USI_OVF_vect, hst, ha] at h
        subst h
        simpa [ack_ovf, drives_sda] using hinv
    case IDLE =>
      rw [hst] at hinv
      simp [step, USI_OVF_vect, hst] at h
      subst h
      simpa [ack_ovf, drives_sda] using hinv
    case JUST_DEBUG =>
      rw [hst] at hinv
      simp [step, USI_OVF_vect, hst] at h
      subst h
      simpa [ack_ovf, drives_sda] using hinv
    all_goals
      simp [step, USI_OVF_vect, hst] at h
      subst h
      simp [ack_ovf, drives_sda, testBit_clearBit8_self]

theorem run_sda_inv (env : Env) (fuel : Nat) (es : List Event) :
    ∀ m m1 : Machine, (m.DDRB.testBit DDSDA = true → drives_sda m.i2c = true) →
      run env fuel es m = .returned m1 →
      (m1.DDRB.testBit DDSDA = true → drives_sda m1.i2c = true) := by
  induction es with
  | nil =>
    intro m m1 hinv h
    simp only [run, Outcome.returned.injEq] at h
    subst h
    exact hinv
  | cons e es ih =>
    intro m m1 hinv h
    simp only [run] at h
    cases hs : step env fuel e m with
    | returned x =>
      rw [hs] at h
      exact ih x m1 (step_sda_inv env fuel e m x hinv hs) h
    | spinning x =>
      rw [hs] at h
      simp [Outcome.bind] at h
    | crashed x =>
      rw [hs] at h
      simp [Outcome.bind] at h

theorem listens_not_drives (s : i2cstate_t) (h : listens s = true) : drives_sda s = false := by
  cases s <;> first | rfl | exact absurd h (by decide)

theorem step_ovf_ACKING_READ_REQUEST_eq (env : Env) (hr : Machine → Nat × Machine)
    (henv : env.handle_read = some hr) (fuel d : Nat) (p : Nat → Nat) (m : Machine)
    (hst : m.i2c = ACKING_READ_REQUEST) :
    step env fuel (.ovf d p) m = .returned (ack_ovf
      { (hr { m with USIDR := d % 256, pinb_reads := 0 }).2 with
        calls := m.calls ++
          [Call.read m.selected_reg (hr { m with USIDR := d % 256, pinb_reads := 0 }).1],
        USIDR := (hr { m with USIDR := d % 256, pinb_reads := 0 }).1 % 256,
        USISR := 0, i2c := WRITING }) := by
  simp [step, USI_OVF_vect, hst, henv]

theorem ack_round_eq (env : Env) (hr : Machine → Nat × Machine)
    (henv : env.handle_read = some hr) (fuel w : Nat) (pw pa : Nat → Nat) (m : Machine)
    (hst : m.i2c = WRITING) :
    run env fuel [.ovf w pw, .ovf 0 pa] m = .returned (ack_ovf
      { (hr { m with i2c := READING_ACK, DDRB := clearBit8 m.DDRB DDSDA, USIDR := 0,
                     USISR := setBit8 14 USIOIF, pinb_reads := 0 }).2 with
        calls := m.calls ++
          [Call.read m.selected_reg
            (hr { m with i2c := READING_ACK, DDRB := clearBit8 m.DDRB DDSDA, USIDR := 0,
                         USISR := setBit8 14 USIOIF, pinb_reads := 0 }).1],
        USIDR := (hr { m with i2c := READING_ACK, DDRB := clearBit8 m.DDRB DDSDA, USIDR := 0,
                              USISR := setBit8 14 USIOIF, pinb_reads := 0 }).1 % 256,
        USISR := 0,
        DDRB := setBit8 (hr { m with i2c := READING_ACK, DDRB := clearBit8 m.DDRB DDSDA,
                                     USIDR := 0, USISR := setBit8 14 USIOIF,
                                     pinb_reads := 0 }).2.DDRB DDSDA,
        i2c := WRITING }) := by
  simp [run, step, USI_OVF_vect, hst, henv, ack_ovf, Outcome.bind]

/-- Entry of the read phase, seen through an observation of what the handler leaves
alone: the read-provider has acted once and its result is in `USIDR`. -/
theorem step_ovf_ACKING_READ_REQUEST_obs (env : Env) (hr : Machine → Nat × Machine)
    (henv : env.handle_read = some hr) (fuel d : Nat) (p : Nat → Nat) (m : Machine)
    (hst : m.i2c = ACKING_READ_REQUEST)
    {α : Type} (obs : Machine → α) (g : α → α) (r : α → Nat)
    (hobs : ∀ x y, same_outside_read_phase x y → obs x = obs y)
    (hg : ∀ x, obs (hr x).2 = g (obs x)) (hret : ∀ x, (hr x).1 = r (obs x)) :
    ∃ m1, step env fuel (.ovf d p) m = .returned m1 ∧ m1.i2c = WRITING ∧
      obs m1 = g (obs m) ∧ m1.USIDR = r (obs m) % 256 := by
  have h0 : obs { m with USIDR := d % 256, pinb_reads := 0 } = obs m :=
    hobs _ _ ⟨rfl, rfl, rfl, rfl, rfl, rfl⟩
  refine ⟨_, step_ovf_ACKING_READ_REQUEST_eq env hr henv fuel d p m hst, rfl, ?_, ?_⟩
  · refine Eq.trans (hobs _ (hr { m with USIDR := d % 256, pinb_reads := 0 }).2 ?_) ?_
    · exact ⟨rfl, rfl, rfl, rfl, rfl, rfl⟩
    · rw [hg, h0]
  · show (hr { m with USIDR := d % 256, pinb_reads := 0 }).1 % 256 = _
    rw [hret, h0]

/-- One acknowledged round seen through such an observation: the read-provider has
acted once more and its result is in `USIDR`. -/
theorem ack_round_obs (env : Env) (hr : Machine → Nat × Machine)
    (henv : env.handle_read = some hr) (fuel w : Nat) (pw pa : Nat → Nat) (m : Machine)
    (hst : m.i2c = WRITING)
    {α : Type} (obs : Machine → α) (g : α → α) (r : α → Nat)
    (hobs : ∀ x y, same_outside_read_phase x y → obs x = obs y)
    (hg : ∀ x, obs (hr x).2 = g (obs x)) (hret : ∀ x, (hr x).1 = r (obs x)) :
    ∃ m1, run env fuel [.ovf w pw, .ovf 0 pa] m = .returned m1 ∧ m1.i2c = WRITING ∧
      obs m1 = g (obs m) ∧ m1.USIDR = r (obs m) % 256 := by
  have h0 : obs { m with i2c := READING_ACK, DDRB := clearBit8 m.DDRB DDSDA, USIDR := 0,
                         USISR := setBit8 14 USIOIF, pinb_reads := 0 } = obs m :=
    hobs _ _ ⟨rfl, rfl, rfl, rfl, rfl, rfl⟩
  refine ⟨_, ack_round_eq env hr henv fuel w pw pa m hst, rfl, ?_, ?_⟩
  · refine Eq.trans
      (hobs _
        (hr { m with i2c := READING_ACK, DDRB := clearBit8 m.DDRB DDSDA, USIDR := 0,
                     USISR := setBit8 14 USIOIF, pinb_reads := 0 }).2 ?_) ?_
    · exact ⟨rfl, rfl, rfl, rfl, rfl, rfl⟩
    · rw [hg, h0]
  · show (hr { m with i2c := READING_ACK, DDRB := clearBit8 m.DDRB DDSDA, USIDR := 0,
                      USISR := setBit8 14 USIOIF, pinb_reads := 0 }).1 % 256 = _
    rw [hret, h0]

theorem ack_rounds_obs (env : Env) (hr : Machine → Nat × Machine)
    (henv : env.handle_read = some hr) (fuel : Nat)
    {α : Type} (obs : Machine → α) (g : α → α) (r : α → Nat)
    (hobs : ∀ x y, same_outside_read_phase x y → obs x = obs y)
    (hg : ∀ x, obs (hr x).2 = g (obs x)) (hret : ∀ x, (hr x).1 = r (obs x)) (a0 : α)
    (l : List (Nat × (Nat → Nat) × (Nat → Nat))) :
    ∀ (m : Machine) (n : Nat), m.i2c = WRITING → obs m = g^[n + 1] a0 →
      m.USIDR = r (g^[n] a0) % 256 →
      ∃ m1, run env fuel (ack_rounds l) m = .returned m1 ∧ m1.i2c = WRITING ∧
        obs m1 = g^[n + l.length + 1] a0 ∧ m1.USIDR = r (g^[n + l.length] a0) % 256 := by
  induction l with
  | nil => intro m n hst ho hu; exact ⟨m, rfl, hst, ho, hu⟩
  | cons e l ih =>
    intro m n hst ho hu
    obtain ⟨a, ha, hai, hao, hau⟩ :=
      ack_round_obs env hr henv fuel e.1 e.2.1 e.2.2 m hst obs g r hobs hg hret
    have hao2 : obs a = g^[n + 1 + 1] a0 := by
      rw [hao, ho, ← Function.iterate_succ_apply' g (n + 1) a0]
    have hau2 : a.USIDR = r (g^[n + 1] a0) % 256 := by rw [hau, ho]
    obtain ⟨b, hb, hbi, hbo, hbu⟩ := ih a (n + 1) hai hao2 hau2
    have e1 : n + 1 + l.length = n + (e :: l).length := by
      rw [List.length_cons]; omega
    refine ⟨b, ?_, hbi, ?_, ?_⟩
    · have : ack_rounds (e :: l) = [.ovf e.1 e.2.1, .ovf 0 e.2.2] ++ ack_rounds l := rfl
      rw [this, run_append, ha]
      exact hb
    · rw [hbo, e1]
    · rw [hbu, e1]

/-- The refused round leaves alone everything outside the handler's own registers. -/
theorem nack_round_view (env : Env) (fuel w a : Nat) (pw pa : Nat → Nat) (m : Machine)
    (hst : m.i2c = WRITING) (ha : a % 256 ≠ 0) :
    ∃ m1, run env fuel [.ovf w pw, .ovf a pa] m = .returned m1 ∧
      same_outside_read_phase m1 m := by
  simp [run, step, USI_OVF_vect, hst, ack_ovf, Outcome.bind, ha, same_outside_read_phase]

theorem run_ovfs_IDLE_view (env : Env) (fuel : Nat) (l : List (Nat × (Nat → Nat))) :
    ∀ m : Machine, m.i2c = IDLE →
      ∃ m1, run env fuel (ovfs l) m = .returned m1 ∧ same_outside_read_phase m1 m := by
  induction l with
  | nil => intro m _; exact ⟨m, rfl, rfl, rfl, rfl, rfl, rfl, rfl⟩
  | cons e l ih =>
    intro m hst
    obtain ⟨m1, h1, h2⟩ :=
      ih { m with USIDR := e.1 % 256, pinb_reads := 0, USISR := setBit8 m.USISR USIOIF } hst
    refine ⟨m1, ?_, h2⟩
    simp only [ovfs, List.map_cons, run, step_ovf_IDLE env fuel e.1 e.2 m hst, Outcome.bind]
    exact h1

theorem returned_inj {a b : Machine} {o : Outcome} (h1 : o = .returned a)
    (h2 : o = .returned b) : a = b := by
  rw [h1] at h2
  exact Outcome.returned.inj h2

theorem counting_read_obs :
    (∀ x y, same_outside_read_phase x y → x.registers 0 = y.registers 0) ∧
      (∀ x, (counting_read x).2.registers 0 = (fun a => (a + 1) % 256) (x.registers 0)) ∧
      (∀ x, (counting_read x).1 = id (x.registers 0)) := by
  refine ⟨fun x y h => by rw [h.1], fun x => ?_, fun x => rfl⟩
  simp [counting_read]

/-! ## The claims -/

/-- C1 (as amended): with the default hooks, for every register index `r < 8`, byte
`v < 256`, register contents and starting protocol state other than `READING_WRITE`,
the WRITE sequence for `(r, v)` ended by a STOP (no clock pulse follows the last ACK
period) followed by the READ sequence for `r` returns in state `WRITING` with
`USIDR = v`, and every register slot other than `r` keeps its value. -/
theorem write_read_round_trip (cs : Bool) (fuel r v : Nat) (hr : r < 8) (hv : v < 256)
    (m : Machine) (hst : m.i2c ≠ READING_WRITE)
    (s1 s2 s3 q : Nat → Nat) (hs1 : scl_low_within fuel s1) (hs2 : scl_low_within fuel s2)
    (hs3 : scl_low_within fuel s3) (hq : scl_stays_high q)
    (o1 o2 : Nat → Nat → Nat) (d1 d2 : Nat → Nat) :
    ∃ m1, run (default_env cs) fuel
        (write_seq s1 o1 d1 q r v ++ read_seq s2 s3 o2 d2 r) m = .returned m1 ∧
      m1.i2c = WRITING ∧ m1.USIDR = v ∧
      ∀ j : Fin 8, j.val ≠ r → m1.registers j = m.registers j := by
  have hf : 0 < fuel := by
    obtain ⟨n, hn, -⟩ := hs1
    omega
  have haw : ((myaddr <<< 1) % 256) >>> 1 = myaddr := by decide
  have har : ((myaddr <<< 1 ||| 1) % 256) >>> 1 = myaddr := by decide
  obtain ⟨a, ha, hai, hasel, hareg, -, -⟩ :=
    select_seq_spec (default_env cs) fuel s1 o1 d1 (myaddr <<< 1) r m hs1 hst haw hr
  obtain ⟨b, hb, hbi, hbsel, hbreg⟩ := write_tail_spec cs fuel v (d1 2) (o1 4) q a hf hai hq
  have hbne : b.i2c ≠ READING_WRITE := by rw [hbi]; decide
  obtain ⟨c, hc, hci, hcsel, hcreg, -, -⟩ :=
    select_seq_spec (default_env cs) fuel s2 o2 d2 (myaddr <<< 1) r b hs2 hbne haw hr
  obtain ⟨e, he, hei, hesel, hereg, heusidr⟩ :=
    read_tail_spec cs fuel (myaddr <<< 1 ||| 1) (d2 2) s3 (o2 4) (o2 5) c hs3 hci har
  have hidx : ∀ x : Machine, x.selected_reg = r → reg_index x = ⟨r, hr⟩ := by
    intro x hx
    simp [reg_index, hx, and_seven_of_lt hr]
  refine ⟨e, ?_, hei, ?_, ?_⟩
  · simp only [write_seq, read_seq, run_append, ha, hb, hc, he, Outcome.bind]
  · rw [heusidr, hcreg, hbreg, hidx a hasel, hidx c hcsel]
    simp [Nat.mod_eq_of_lt hv]
  · intro j hj
    rw [hereg, hcreg, hbreg, hareg, hidx a hasel]
    exact Function.update_noteq (fun h => hj (by rw [h])) _ _

/-- C1 witness: WRITE reg 3 = 0x55, READ reg 3, from the reset state. -/
theorem write_read_round_trip_witness :
    ∃ m1, round_trip_from_reset = .returned m1 ∧ m1.i2c = WRITING ∧ m1.USIDR = 0x55 ∧
      ∀ j : Fin 8, j.val ≠ 3 → m1.registers j = reset_machine.registers j :=
  write_read_round_trip true 1 3 0x55 (by decide) (by decide) reset_machine (by decide)
    pins_low pins_low pins_low pins_idle scl_low_within_pins_low scl_low_within_pins_low
    scl_low_within_pins_low scl_stays_high_pins_idle (fun _ => pins_low) (fun _ => pins_low)
    (fun _ => 0) (fun _ => 0)

/-- C1 counterexample: when the first START finds the slave in `READING_WRITE`, the
WRITE is taken for a read request; register 3 is never written and the READ loads 0
instead of 0x55. -/
theorem round_trip_fails_from_READING_WRITE :
    round_trip_from_READING_WRITE.machine.i2c = WRITING ∧
      round_trip_from_READING_WRITE.machine.USIDR = 0 ∧
      round_trip_from_READING_WRITE.machine.USIDR ≠ 0x55 ∧
      round_trip_from_READING_WRITE.machine.registers 3 = 0 ∧
      write_calls round_trip_from_READING_WRITE.machine.calls = [] := by
  decide

/-- C2: address mismatch never ACKs and never touches the register file.  From a
state left by USI_START (`SEQ_STARTED` or `SEQ_RESTARTED`, SDA released), an address
byte `b` with `b >> 1 ≠ 0x2a` followed by any overflows `l` without a START: the first
overflow leaves the state `IDLE`, and after every prefix of the overflows the state is
`IDLE`, the DDSDA bit is clear, no call was logged (so `i2c_ack` was not called), and
`registers` and `selected_reg` are unchanged. -/
theorem address_mismatch_silent (env : Env) (fuel : Nat) (m : Machine) (b : Nat)
    (hb : b < 256) (hne : b >>> 1 ≠ myaddr)
    (hst : m.i2c = SEQ_STARTED ∨ m.i2c = SEQ_RESTARTED)
    (hsda : m.DDRB.testBit DDSDA = false) (o : Nat → Nat)
    (l : List (Nat × (Nat → Nat))) :
    (∃ m1, step env fuel (.ovf b o) m = .returned m1 ∧ m1.i2c = IDLE) ∧
    ∀ n, ∃ m2, run env fuel (.ovf b o :: ovfs (l.take n)) m = .returned m2 ∧
      m2.i2c = IDLE ∧ m2.DDRB.testBit DDSDA = false ∧ m2.calls = m.calls ∧
      ack_called m2.calls = ack_called m.calls ∧
      m2.registers = m.registers ∧ m2.selected_reg = m.selected_reg := by
  obtain ⟨m1, h1, hi, hd, hc, hr, hs⟩ := address_mismatch_aux env fuel m b hb hne hst o
  refine ⟨⟨m1, h1, hi⟩, ?_⟩
  intro n
  obtain ⟨m2, h2, hi2, hd2, -, hc2, hr2, hs2⟩ := run_ovfs_IDLE env fuel (l.take n) m1 hi
  refine ⟨m2, ?_, hi2, ?_, ?_, ?_, ?_, ?_⟩
  · simp only [run, h1, Outcome.bind]
    exact h2
  · rw [hd2, hd]; exact hsda
  · rw [hc2, hc]
  · rw [hc2, hc]
  · rw [hr2, hr]
  · rw [hs2, hs]

/-- C2 witness: address byte 0x20 (address 0x10) after a START, then two more bytes. -/
theorem address_mismatch_silent_witness :
    (∃ m1, step (default_env true) 1 (.ovf 0x20 pins_low)
        { reset_machine with i2c := SEQ_STARTED } = .returned m1 ∧ m1.i2c = IDLE) ∧
    ∀ n, ∃ m2, run (default_env true) 1
        (.ovf 0x20 pins_low :: ovfs ([(3, pins_low), (0x55, pins_low)].take n))
        { reset_machine with i2c := SEQ_STARTED } = .returned m2 ∧
      m2.i2c = IDLE ∧ m2.DDRB.testBit DDSDA = false ∧ m2.calls = [] ∧
      ack_called m2.calls = ack_called [] ∧
      m2.registers = reset_machine.registers ∧ m2.selected_reg = 0 :=
  address_mismatch_silent (default_env true) 1 { reset_machine with i2c := SEQ_STARTED } 0x20
    (by decide) (by decide) (Or.inl rfl) (by decide) pins_low [(3, pins_low), (0x55, pins_low)]

/-- C3: an invalid register index is rejected with NACK.  For `8 ≤ r ≤ 255`, USI_OVF
in `REGISTER_SELECT` leaves `selected_reg`, the registers and `DDRB` unchanged, leaves
in `USIDR` the received byte, calls `i2c_nack` only (counter nibble of `USISR` is 14)
and moves to `NACKING`; the next USI_OVF moves to `IDLE` with DDSDA clear, again
without touching `selected_reg` or the registers. -/
theorem invalid_register_nacked (env : Env) (fuel : Nat) (m : Machine) (r : Nat)
    (h8 : 8 ≤ r) (h255 : r ≤ 255) (hst : m.i2c = REGISTER_SELECT) (p : Nat → Nat) :
    ∃ m1, step env fuel (.ovf r p) m = .returned m1 ∧
      m1.selected_reg = m.selected_reg ∧ m1.registers = m.registers ∧
      m1.DDRB = m.DDRB ∧ m1.USIDR = r ∧ m1.USISR % 16 = 14 ∧ m1.i2c = NACKING ∧
      m1.calls = m.calls ++ [Call.nack] ∧
      ∀ (d : Nat) (p2 : Nat → Nat), ∃ m2, step env fuel (.ovf d p2) m1 = .returned m2 ∧
        m2.i2c = IDLE ∧ m2.DDRB.testBit DDSDA = false ∧
        m2.selected_reg = m.selected_reg ∧ m2.registers = m.registers ∧
        m2.calls = m1.calls := by
  have hr256 : r % 256 = r := by omega
  have hv : valid_register ((r : Nat) : Int) = 0 := by
    unfold valid_register
    split <;> omega
  simp [step, USI_OVF_vect, hst, hr256, hv, ack_ovf, i2c_nack, setBit8, USIOIF,
    testBit_clearBit8_self]

/-- C3 witness: register byte 9 in `REGISTER_SELECT`. -/
theorem invalid_register_nacked_witness :
    ∃ m1, step (default_env true) 1 (.ovf 9 pins_low)
        { reset_machine with i2c := REGISTER_SELECT } = .returned m1 ∧
      m1.selected_reg = 0 ∧ m1.registers = reset_machine.registers ∧
      m1.DDRB = 0 ∧ m1.USIDR = 9 ∧ m1.USISR % 16 = 14 ∧ m1.i2c = NACKING ∧
      m1.calls = [] ++ [Call.nack] ∧
      ∀ (d : Nat) (p2 : Nat → Nat), ∃ m2,
        step (default_env true) 1 (.ovf d p2) m1 = .returned m2 ∧
        m2.i2c = IDLE ∧ m2.DDRB.testBit DDSDA = false ∧
        m2.selected_reg = 0 ∧ m2.registers = reset_machine.registers ∧
        m2.calls = m1.calls :=
  invalid_register_nacked (default_env true) 1 { reset_machine with i2c := REGISTER_SELECT } 9
    (by decide) (by decide) rfl pins_low

/-- C4 (code diverges): two data bytes after one register selection.  With the
default hooks the write-consumer is called once, for the first byte only; the second
byte arrives while the state is still `ACKING_WRITE` and is dropped, so register 0
ends as 1, not 2. -/
theorem second_data_byte_dropped :
    (∃ m1, two_byte_write = .returned m1) ∧
      write_calls two_byte_write.machine.calls = [(0, 1)] ∧
      two_byte_write.machine.registers 0 = 1 ∧
      two_byte_write.machine.i2c = ACKING_WRITE := by
  refine ⟨⟨_, rfl⟩, ?_, ?_, ?_⟩ <;> decide

/-- C5 (code diverges): for every constant pin sample `p`, the `ACKING_WRITE`
activation returns with SDA released and line 219 not run, but with the state still
`ACKING_WRITE`: neither `IDLE` (for `p` with both lines high) nor `READING_WRITE`. -/
theorem acking_write_keeps_state (env : Env) (fuel p : Nat) (m : Machine) :
    ∃ m1, USI_OVF_vect env (fuel + 1) (fun _ => p) { m with i2c := ACKING_WRITE }
        = .returned m1 ∧
      m1.i2c = ACKING_WRITE ∧ m1.DDRB.testBit DDSDA = false ∧
      m1.USISR = setBit8 m.USISR USIOIF := by
  have hq : (fun _ : Nat => p) 1 % 256 &&& (1 <<< PINSCL) = 0 ∨ (fun _ : Nat => p) 2 % 256 ≠ 0 := by
    by_cases h : p % 256 &&& (1 <<< PINSCL) = 0
    · exact Or.inl h
    · exact Or.inr (nonzero_of_scl_high h)
  obtain ⟨k, hk⟩ := ovf_ACKING_WRITE_quiet env fuel (fun _ => p) { m with i2c := ACKING_WRITE }
    rfl hq
  exact ⟨_, hk, rfl, testBit_clearBit8_self _, rfl⟩

/-- C6: a READ stops exactly at the first NACK.  Starting in `ACKING_READ_REQUEST`
with any read-provider `hr` installed, after the entry overflow and `j` acknowledged
rounds the state is `WRITING` and `hr` has been called `j + 1` times; after `k`
acknowledged rounds and one round whose sampled acknowledge byte is non-zero the state
is `IDLE` with DDSDA clear and `hr` has been called exactly `k + 1` times; any further
overflows without a START leave the state `IDLE` and call it no more.  The calls are
counted in the log and in their effect: for every observation `obs` of what the
handler leaves alone, on which `hr` acts as `g` and from which it computes its result
as `r`, the observation is `g` iterated `j + 1` times (`k + 1` after the NACK and
after the further overflows) and `USIDR` holds the result of the last call. -/
theorem read_stops_at_first_nack (env : Env) (hr : Machine → Nat × Machine)
    (henv : env.handle_read = some hr) (fuel : Nat) (m : Machine)
    (hst : m.i2c = ACKING_READ_REQUEST) (d0 : Nat) (p0 : Nat → Nat)
    (l : List (Nat × (Nat → Nat) × (Nat → Nat)))
    (w a : Nat) (pw pa : Nat → Nat) (ha : a % 256 ≠ 0)
    (later : List (Nat × (Nat → Nat))) :
    (∀ j, j ≤ l.length →
      ∃ mj, run env fuel (.ovf d0 p0 :: ack_rounds (l.take j)) m = .returned mj ∧
        mj.i2c = WRITING ∧ read_calls mj.calls = read_calls m.calls + (j + 1) ∧
        ∀ (α : Type) (obs : Machine → α) (g : α → α) (r : α → Nat),
          (∀ x y, same_outside_read_phase x y → obs x = obs y) →
          (∀ x, obs (hr x).2 = g (obs x)) → (∀ x, (hr x).1 = r (obs x)) →
          obs mj = g^[j + 1] (obs m) ∧ mj.USIDR = r (g^[j] (obs m)) % 256) ∧
    ∃ m1, run env fuel (.ovf d0 p0 :: (ack_rounds l ++ [.ovf w pw, .ovf a pa])) m
        = .returned m1 ∧
      m1.i2c = IDLE ∧ m1.DDRB.testBit DDSDA = false ∧
      read_calls m1.calls = read_calls m.calls + (l.length + 1) ∧
      (∀ (α : Type) (obs : Machine → α) (g : α → α) (r : α → Nat),
        (∀ x y, same_outside_read_phase x y → obs x = obs y) →
        (∀ x, obs (hr x).2 = g (obs x)) → (∀ x, (hr x).1 = r (obs x)) →
        obs m1 = g^[l.length + 1] (obs m)) ∧
      ∃ m2, run env fuel (ovfs later) m1 = .returned m2 ∧ m2.i2c = IDLE ∧
        read_calls m2.calls = read_calls m1.calls ∧
        ∀ (α : Type) (obs : Machine → α) (g : α → α) (r : α → Nat),
          (∀ x y, same_outside_read_phase x y → obs x = obs y) →
          (∀ x, obs (hr x).2 = g (obs x)) → (∀ x, (hr x).1 = r (obs x)) →
          obs m2 = g^[l.length + 1] (obs m) := by
  obtain ⟨a0, ha0, ha0i, ha0c⟩ := step_ovf_ACKING_READ_REQUEST env hr henv fuel d0 p0 m hst
  have hobsN : ∀ (n : List (Nat × (Nat → Nat) × (Nat → Nat))) (b : Machine),
      run env fuel (ack_rounds n) a0 = .returned b →
      ∀ (α : Type) (obs : Machine → α) (g : α → α) (r : α → Nat),
        (∀ x y, same_outside_read_phase x y → obs x = obs y) →
        (∀ x, obs (hr x).2 = g (obs x)) → (∀ x, (hr x).1 = r (obs x)) →
        obs b = g^[n.length + 1] (obs m) ∧ b.USIDR = r (g^[n.length] (obs m)) % 256 := by
    intro n b hb α obs g r hobs hg hret
    obtain ⟨x0, hx0, hx0i, hx0o, hx0u⟩ :=
      step_ovf_ACKING_READ_REQUEST_obs env hr henv fuel d0 p0 m hst obs g r hobs hg hret
    have hxa : x0 = a0 := returned_inj hx0 ha0
    subst hxa
    obtain ⟨b2, hb2, -, hb2o, hb2u⟩ :=
      ack_rounds_obs env hr henv fuel obs g r hobs hg hret (obs m) n x0 0 hx0i hx0o hx0u
    have hbb : b2 = b := returned_inj hb2 hb
    subst hbb
    simpa using And.intro hb2o hb2u
  constructor
  · intro j hj
    obtain ⟨b, hb, hbi, hbc⟩ := ack_rounds_spec env hr henv fuel (l.take j) a0 ha0i
    have hlen : (l.take j).length = j := by rw [List.length_take, Nat.min_eq_left hj]
    refine ⟨b, ?_, hbi, ?_, ?_⟩
    · simp only [run, ha0, Outcome.bind]
      exact hb
    · rw [hbc, ha0c, hlen]; omega
    · intro α obs g r hobs hg hret
      have := hobsN (l.take j) b hb α obs g r hobs hg hret
      rw [hlen] at this
      exact this
  · obtain ⟨b, hb, hbi, hbc⟩ := ack_rounds_spec env hr henv fuel l a0 ha0i
    obtain ⟨c, hc, hci, hcd, hcc⟩ := nack_round_spec env fuel w a pw pa b hbi ha
    obtain ⟨c2, hc2, hcv⟩ := nack_round_view env fuel w a pw pa b hbi ha
    have hcc2 : c2 = c := returned_inj hc2 hc
    subst hcc2
    obtain ⟨e, he, hei, -, -, hec, -, -⟩ := run_ovfs_IDLE env fuel later c2 hci
    obtain ⟨e2, he2, hev⟩ := run_ovfs_IDLE_view env fuel later c2 hci
    have hee : e2 = e := returned_inj he2 he
    subst hee
    refine ⟨c2, ?_, hci, hcd, ?_, ?_, e2, he, hei, ?_, ?_⟩
    · simp only [run, ha0, Outcome.bind, run_append, hb]
      exact hc
    · rw [hcc, hbc, ha0c]; omega
    · intro α obs g r hobs hg hret
      rw [hobs c2 b hcv]
      exact (hobsN l b hb α obs g r hobs hg hret).1
    · rw [hec]
    · intro α obs g r hobs hg hret
      rw [hobs e2 c2 hev, hobs c2 b hcv]
      exact (hobsN l b hb α obs g r hobs hg hret).1

/-- C6 witness: the read-provider `counting_read` (returns slot 0, then increments
it), two acknowledged bytes, then NACK (sampled byte 1), then two stray overflows:
three calls, the bytes 0, 1, 2 loaded in turn, slot 0 ends as 3. -/
theorem read_stops_at_first_nack_witness :
    (∀ j, j ≤ 2 →
      ∃ mj, run counting_env 1
          (.ovf 0 pins_low ::
            ack_rounds ([(0, pins_low, pins_low), (0, pins_low, pins_low)].take j))
          { reset_machine with i2c := ACKING_READ_REQUEST } = .returned mj ∧
        mj.i2c = WRITING ∧ read_calls mj.calls = 0 + (j + 1) ∧
        mj.registers 0 = (fun a => (a + 1) % 256)^[j + 1] 0 ∧
        mj.USIDR = (fun a => (a + 1) % 256)^[j] 0 % 256) ∧
    ∃ m1, run counting_env 1
        (.ovf 0 pins_low ::
          (ack_rounds [(0, pins_low, pins_low), (0, pins_low, pins_low)] ++
            [.ovf 0 pins_low, .ovf 1 pins_low]))
        { reset_machine with i2c := ACKING_READ_REQUEST } = .returned m1 ∧
      m1.i2c = IDLE ∧ m1.DDRB.testBit DDSDA = false ∧
      read_calls m1.calls = 0 + (2 + 1) ∧ m1.registers 0 = 3 ∧
      ∃ m2, run counting_env 1 (ovfs [(7, pins_low), (0, pins_low)]) m1
          = .returned m2 ∧ m2.i2c = IDLE ∧
        read_calls m2.calls = read_calls m1.calls ∧ m2.registers 0 = 3 := by
  obtain ⟨h1, m1, hm1, hi1, hd1, hc1, ho1, m2, hm2, hi2, hc2, ho2⟩ :=
    read_stops_at_first_nack counting_env counting_read rfl 1
      { reset_machine with i2c := ACKING_READ_REQUEST } rfl 0 pins_low
      [(0, pins_low, pins_low), (0, pins_low, pins_low)] 0 1 pins_low pins_low (by decide)
      [(7, pins_low), (0, pins_low)]
  refine ⟨?_, m1, hm1, hi1, hd1, hc1, ?_, m2, hm2, hi2, hc2, ?_⟩
  · intro j hj
    obtain ⟨mj, hmj, hij, hcj, hoj⟩ := h1 j hj
    exact ⟨mj, hmj, hij, hcj,
      hoj Nat (fun x => x.registers 0) (fun a => (a + 1) % 256) id counting_read_obs.1
        counting_read_obs.2.1 counting_read_obs.2.2⟩
  · exact ho1 Nat (fun x => x.registers 0) (fun a => (a + 1) % 256) id counting_read_obs.1
      counting_read_obs.2.1 counting_read_obs.2.2
  · exact ho2 Nat (fun x => x.registers 0) (fun a => (a + 1) % 256) id counting_read_obs.1
      counting_read_obs.2.1 counting_read_obs.2.2

/-- C7: a START always wins.  Once the clock line is sampled low (sample `n`, within
the fuel), USI_START returns with the state `SEQ_RESTARTED` if it was `READING_WRITE`
and `SEQ_STARTED` otherwise, `debug_note` cleared only in the latter case, the DDSDA
bit clear and the other bits of `DDRB` unchanged, `USISR` equal to
`(1<<USISIF)|(1<<USIOIF)|(1<<USIPF)` with counter nibble 0, and `selected_reg` and the
registers unchanged. -/
theorem start_always_wins (fuel : Nat) (pins : Nat → Nat) (m : Machine) (n : Nat)
    (hn : n < fuel) (hlow : pins n % 256 &&& (1 <<< PINSCL) = 0) :
    ∃ m1, USI_START_vect fuel pins m = .returned m1 ∧
      m1.i2c = (if m.i2c = READING_WRITE then SEQ_RESTARTED else SEQ_STARTED) ∧
      m1.debug_note = (if m.i2c = READING_WRITE then m.debug_note else 0) ∧
      m1.DDRB.testBit DDSDA = false ∧
      (∀ k, k < 8 → k ≠ DDSDA → m1.DDRB.testBit k = m.DDRB.testBit k) ∧
      m1.USISR = (1 <<< USISIF) ||| (1 <<< USIOIF) ||| (1 <<< USIPF) ∧
      m1.USISR % 16 = 0 ∧
      m1.selected_reg = m.selected_reg ∧ m1.registers = m.registers := by
  obtain ⟨k, hk⟩ := USI_START_eq ⟨n, hn, hlow⟩
  refine ⟨_, hk m, ?_⟩
  have hU : ((1 <<< USISIF) ||| (1 <<< USIOIF) ||| (1 <<< USIPF)) % 256 =
      (1 <<< USISIF) ||| (1 <<< USIOIF) ||| (1 <<< USIPF) := by decide
  have hC : ((1 <<< USISIF) ||| (1 <<< USIOIF) ||| (1 <<< USIPF)) % 16 = 0 := by decide
  by_cases h : m.i2c = READING_WRITE
  · refine ⟨?_, ?_, testBit_clearBit8_self _, ?_, ?_, ?_, ?_, ?_⟩ <;>
      simp only [start_finish, start_switch, h, if_true, hU, hC]
    intro k hk8 hne
    exact testBit_clearBit8_other _ k hk8 hne
  · refine ⟨?_, ?_, testBit_clearBit8_self _, ?_, ?_, ?_, ?_, ?_⟩ <;>
      simp only [start_finish, start_switch, h, if_false, hU, hC]
    intro k hk8 hne
    exact testBit_clearBit8_other _ k hk8 hne

/-- C7 witness: a START in `READING_WRITE` with `DDRB = 5`, the clock sampled high
twice and then low. -/
theorem start_always_wins_witness :
    ∃ m1, USI_START_vect 3 (fun i => if i < 2 then 4 else 0)
        { reset_machine with i2c := READING_WRITE, DDRB := 5 } = .returned m1 ∧
      m1.i2c = (if READING_WRITE = READING_WRITE then SEQ_RESTARTED else SEQ_STARTED) ∧
      m1.debug_note = (if READING_WRITE = READING_WRITE then (0 : Int) else 0) ∧
      m1.DDRB.testBit DDSDA = false ∧
      (∀ k, k < 8 → k ≠ DDSDA → m1.DDRB.testBit k = (5 : Nat).testBit k) ∧
      m1.USISR = (1 <<< USISIF) ||| (1 <<< USIOIF) ||| (1 <<< USIPF) ∧
      m1.USISR % 16 = 0 ∧
      m1.selected_reg = 0 ∧ m1.registers = reset_machine.registers :=
  start_always_wins 3 (fun i => if i < 2 then 4 else 0)
    { reset_machine with i2c := READING_WRITE, DDRB := 5 } 2 (by decide) (by decide)

/-- C8 (code diverges): a START after a data byte and its ACK-period overflow, no
STOP having been seen, leaves the state `SEQ_STARTED`, not `SEQ_RESTARTED`, and the
following address byte is handled by the `SEQ_STARTED` case (state `ACKING_ADDRESS`,
not `ACKING_READ_REQUEST`). -/
theorem start_after_data_byte_is_fresh :
    (∃ m1, restart_after_data_byte = .returned m1) ∧
      restart_after_data_byte.machine.i2c = SEQ_STARTED ∧
      (∃ m2, restart_then_address = .returned m2) ∧
      restart_then_address.machine.i2c = ACKING_ADDRESS := by
  refine ⟨⟨_, rfl⟩, ?_, ⟨_, rfl⟩, ?_⟩ <;> decide

/-- C9: `selected_reg` sticks.  With hooks that do not assign `selected_reg`, USI_START
leaves it unchanged and USI_OVF leaves it unchanged except in `REGISTER_SELECT` with a
byte below 8, which is stored in it (whether the handler returns, spins or crashes);
and START, matching address byte, ACK-period overflow, STOP, new START returns with
`selected_reg` as it was before the first START. -/
theorem selected_reg_sticks (env : Env)
    (hrd : ∀ hr, env.handle_read = some hr → ∀ x, (hr x).2.selected_reg = x.selected_reg)
    (hwr : ∀ hw, env.handle_write = some hw → ∀ v x, (hw v x).selected_reg = x.selected_reg)
    (hnn : env.handle_read ≠ none) (fuel : Nat) (m : Machine) :
    (∀ pins, (step env fuel (.start pins) m).machine.selected_reg = m.selected_reg) ∧
    (∀ dr pins, (step env fuel (.ovf dr pins) m).machine.selected_reg =
      if m.i2c = REGISTER_SELECT ∧ dr % 256 < 8 then dr % 256 else m.selected_reg) ∧
    ∀ (s1 s2 o0 o1 : Nat → Nat) (addr d : Nat), scl_low_within fuel s1 →
      scl_low_within fuel s2 → (addr % 256) >>> 1 = myaddr →
      ∃ m1, run env fuel [.start s1, .ovf addr o0, .ovf d o1, .start s2] m = .returned m1 ∧
        m1.selected_reg = m.selected_reg ∧ m1.i2c = SEQ_STARTED := by
  refine ⟨fun pins => (USI_START_frame fuel pins m).1,
    fun dr pins => step_ovf_selected_reg env hrd hwr fuel m dr pins, ?_⟩
  intro s1 s2 o0 o1 addr d hs1 hs2 ha
  obtain ⟨k1, hk1⟩ := step_start_eq env hs1
  obtain ⟨k2, hk2⟩ := step_start_eq env hs2
  obtain ⟨hr, hhr⟩ : ∃ hr, env.handle_read = some hr := by
    cases hx : env.handle_read with
    | none => exact absurd hx hnn
    | some f => exact ⟨f, rfl⟩
  simp only [run, hk1, hk2, Outcome.bind]
  by_cases h : m.i2c = READING_WRITE
  · simp [step, USI_OVF_vect, start_switch, start_finish, h, ha, hhr, ack_ovf, i2c_ack,
      hrd hr hhr]
  · simp [step, USI_OVF_vect, start_switch, start_finish, h, ha, ack_ovf, i2c_ack]

/-- C9 witness: default hooks, `selected_reg = 5`, slave in `REGISTER_SELECT`. -/
theorem selected_reg_sticks_witness :
    (∀ pins, (step (default_env true) 1 (.start pins)
        { reset_machine with selected_reg := 5, i2c := REGISTER_SELECT }).machine.selected_reg
          = 5) ∧
    (∀ dr pins, (step (default_env true) 1 (.ovf dr pins)
        { reset_machine with selected_reg := 5, i2c := REGISTER_SELECT }).machine.selected_reg =
      if REGISTER_SELECT = REGISTER_SELECT ∧ dr % 256 < 8 then dr % 256 else 5) ∧
    ∀ (s1 s2 o0 o1 : Nat → Nat) (addr d : Nat), scl_low_within 1 s1 →
      scl_low_within 1 s2 → (addr % 256) >>> 1 = myaddr →
      ∃ m1, run (default_env true) 1 [.start s1, .ovf addr o0, .ovf d o1, .start s2]
          { reset_machine with selected_reg := 5, i2c := REGISTER_SELECT } = .returned m1 ∧
        m1.selected_reg = 5 ∧ m1.i2c = SEQ_STARTED :=
  selected_reg_sticks (default_env true) (default_read_keeps_selected_reg true)
    (default_write_keeps_selected_reg true) (by simp [default_env]) 1
    { reset_machine with selected_reg := 5, i2c := REGISTER_SELECT }

/-- C10 (code diverges): in a program that assigns neither override point the pointer
`handle_write` called in `READING_WRITE` is null, `default_handle_write` being bound
to the unused pointer `handler_write`; the call does not return and no register is
written.  Only `handle_read` holds its default hook. -/
theorem write_hook_unassigned (cs : Bool) (fuel v : Nat) (pins : Nat → Nat) (m : Machine) :
    (boot_env cs).handle_write = none ∧ handler_write = some default_handle_write ∧
      (boot_env cs).handle_read = some default_handle_read ∧
      ∃ m1, step (boot_env cs) fuel (.ovf v pins) { m with i2c := READING_WRITE }
          = .crashed m1 ∧
        m1.registers = m.registers ∧ m1.calls = m.calls := by
  refine ⟨rfl, rfl, rfl, _, rfl, rfl, rfl⟩

/-- C11: ACK and NACK program the counter identically and differ only in the drive.
`i2c_ack` leaves `USIDR = 0`, the DDSDA bit set, every other bit of `DDRB` unchanged and
`USISR = 14`; `i2c_nack` leaves `USISR = 14` and `USIDR`, `DDRB` unchanged; from the
value 14 the 4-bit edge counter is 15 after one clock edge and wraps to 0 after two. -/
theorem ack_nack_program_counter (m : Machine) :
    (i2c_ack m).USIDR = 0 ∧ (i2c_ack m).DDRB.testBit DDSDA = true ∧
      (∀ k : Fin 8, k.val ≠ DDSDA → (i2c_ack m).DDRB.testBit k.val = m.DDRB.testBit k.val) ∧
      (i2c_ack m).USISR = 14 ∧
      (i2c_nack m).USISR = 14 ∧ (i2c_nack m).USIDR = m.USIDR ∧ (i2c_nack m).DDRB = m.DDRB ∧
      usi_counter (i2c_ack m).USISR 1 = 15 ∧ usi_counter (i2c_ack m).USISR 2 = 0 ∧
      usi_counter (i2c_nack m).USISR 1 = 15 ∧ usi_counter (i2c_nack m).USISR 2 = 0 := by
  refine ⟨rfl, testBit_setBit8_self _, ?_, rfl, rfl, rfl, rfl, ?_, ?_, ?_, ?_⟩
  all_goals first | (simp [usi_counter, i2c_ack, i2c_nack]; done) | skip
  intro k hk
  show (setBit8 m.DDRB DDSDA).testBit k.val = m.DDRB.testBit k.val
  rw [setBit8_testBit]
  simp [hk]

/-- C12 (as amended): recovery after a rejected register select.  From every starting
state other than `READING_WRITE`, START, matching address byte, ACK-period overflow,
register byte 9 and the NACK-period overflow end in `IDLE`; a following transaction
START, matching address byte, ACK-period overflow, register byte 0, ACK-period
overflow, data byte `v` then succeeds with the default hooks: `selected_reg` is 0, the
write-consumer is called once, with `v` and index 0, register 0 holds `v`, the other
registers are unchanged, and the byte is ACKed (state `ACKING_WRITE`, DDSDA set). -/
theorem recovery_after_rejected_select (cs : Bool) (fuel v : Nat) (hv : v < 256)
    (m : Machine) (hst : m.i2c ≠ READING_WRITE) (s1 s2 : Nat → Nat)
    (hs1 : scl_low_within fuel s1) (hs2 : scl_low_within fuel s2)
    (o1 o2 : Nat → Nat → Nat) (d1 d2 : Nat → Nat) (a1 a2 : Nat)
    (ha1 : (a1 % 256) >>> 1 = myaddr) (ha2 : (a2 % 256) >>> 1 = myaddr) :
    ∃ m1, run (default_env cs) fuel (select_seq s1 o1 d1 a1 9) m = .returned m1 ∧
      m1.i2c = IDLE ∧
      ∃ m2, run (default_env cs) fuel (select_seq s2 o2 d2 a2 0 ++ [.ovf v (o2 4)]) m1
          = .returned m2 ∧
        m2.selected_reg = 0 ∧ m2.i2c = ACKING_WRITE ∧ m2.DDRB.testBit DDSDA = true ∧
        write_calls m2.calls = write_calls m.calls ++ [(0, to_char cs v)] ∧
        m2.registers 0 = v ∧ ∀ j : Fin 8, j ≠ 0 → m2.registers j = m.registers j := by
  obtain ⟨a, ha, hai, -, hareg, -, hac⟩ :=
    reject_seq_spec (default_env cs) fuel s1 o1 d1 a1 9 m hs1 hst ha1 (by decide) (by decide)
  have hane : a.i2c ≠ READING_WRITE := by rw [hai]; decide
  obtain ⟨b, hb, hbi, hbsel, hbreg, -, hbc⟩ :=
    select_seq_spec (default_env cs) fuel s2 o2 d2 a2 0 a hs2 hane ha2 (by decide)
  obtain ⟨c, hc, hci, hcsel, hcreg, hcc, hcd⟩ :=
    step_ovf_READING_WRITE_default cs fuel v (o2 4) b hbi
  have hidx : reg_index b = 0 := by
    simp [reg_index, hbsel]
  refine ⟨a, ha, hai, c, ?_, by rw [hcsel, hbsel], hci, hcd, ?_, ?_, ?_⟩
  · rw [run_append, hb]
    simp only [Outcome.bind, run, hc]
  · rw [hcc, hbc, hac, hbsel]
    simp [write_calls_append, write_calls]
  · rw [hcreg, hidx]
    simp [Nat.mod_eq_of_lt hv]
  · intro j hj
    rw [hcreg, hidx, Function.update_noteq hj, hbreg, hareg]

/-- C12 witness: from the reset state, data byte 0xA7. -/
theorem recovery_after_rejected_select_witness :
    ∃ m1, run (default_env true) 1
        (select_seq pins_low (fun _ => pins_low) (fun _ => 0) 0x54 9) reset_machine
        = .returned m1 ∧
      m1.i2c = IDLE ∧
      ∃ m2, run (default_env true) 1
          (select_seq pins_low (fun _ => pins_low) (fun _ => 0) 0x54 0 ++ [.ovf 0xA7 pins_low])
          m1 = .returned m2 ∧
        m2.selected_reg = 0 ∧ m2.i2c = ACKING_WRITE ∧ m2.DDRB.testBit DDSDA = true ∧
        write_calls m2.calls = write_calls reset_machine.calls ++ [(0, to_char true 0xA7)] ∧
        m2.registers 0 = 0xA7 ∧ ∀ j : Fin 8, j ≠ 0 → m2.registers j = reset_machine.registers j :=
  recovery_after_rejected_select true 1 0xA7 (by decide) reset_machine (by decide) pins_low
    pins_low scl_low_within_pins_low scl_low_within_pins_low (fun _ => pins_low)
    (fun _ => pins_low) (fun _ => 0) (fun _ => 0) 0x54 0x54 (by decide) (by decide)

/-- C12 counterexample: when the START finds the slave in `READING_WRITE` the address
byte is taken for a read request, register byte 9 is not examined, and the sequence
ends in `WRITING`, not `IDLE`, without a NACK. -/
theorem reject_fails_from_READING_WRITE :
    (∃ m1, reject_from_READING_WRITE = .returned m1) ∧
      reject_from_READING_WRITE.machine.i2c = WRITING ∧
      reject_from_READING_WRITE.machine.i2c ≠ IDLE ∧
      reject_from_READING_WRITE.machine.calls.contains Call.nack = false := by
  refine ⟨⟨_, rfl⟩, ?_, ?_, ?_⟩ <;> decide

/-- C13: hooks only ever see a valid index.  With hooks that do not assign
`selected_reg`, from an initial state with `i2c = IDLE`, `selected_reg = 0` and an
empty call log, after any finite sequence of USI_START and USI_OVF events (whether the
last handler returned or not) `selected_reg < 8`, so the mask `selected_reg & 7` is the
identity and the array index is `selected_reg`; and every logged call of the
read-provider or write-consumer was made with `selected_reg < 8`. -/
theorem hooks_see_valid_index (env : Env)
    (hrd : ∀ hr, env.handle_read = some hr → ∀ x, (hr x).2.selected_reg = x.selected_reg)
    (hwr : ∀ hw, env.handle_write = some hw → ∀ v x, (hw v x).selected_reg = x.selected_reg)
    (fuel : Nat) (es : List Event) (m0 : Machine) :
    (run env fuel es { m0 with i2c := IDLE, selected_reg := 0, calls := [] }).machine.selected_reg
        < 8 ∧
      (run env fuel es
          { m0 with i2c := IDLE, selected_reg := 0, calls := [] }).machine.selected_reg &&& 7 =
        (run env fuel es
          { m0 with i2c := IDLE, selected_reg := 0, calls := [] }).machine.selected_reg ∧
      (reg_index (run env fuel es
          { m0 with i2c := IDLE, selected_reg := 0, calls := [] }).machine).val =
        (run env fuel es
          { m0 with i2c := IDLE, selected_reg := 0, calls := [] }).machine.selected_reg ∧
      hook_calls_valid
        (run env fuel es { m0 with i2c := IDLE, selected_reg := 0, calls := [] }).machine.calls
        = true := by
  obtain ⟨h1, h2⟩ := run_index_valid env hrd hwr fuel es
    { m0 with i2c := IDLE, selected_reg := 0, calls := [] } (Nat.zero_lt_succ 7) rfl
  exact ⟨h1, and_seven_of_lt h1, and_seven_of_lt h1, h2⟩

/-- C13 witness: default hooks, a WRITE to register 3 followed by a READ, from reset. -/
theorem hooks_see_valid_index_witness :
    round_trip_from_reset.machine.selected_reg < 8 ∧
      round_trip_from_reset.machine.selected_reg &&& 7 =
        round_trip_from_reset.machine.selected_reg ∧
      (reg_index round_trip_from_reset.machine).val =
        round_trip_from_reset.machine.selected_reg ∧
      hook_calls_valid round_trip_from_reset.machine.calls = true :=
  hooks_see_valid_index (default_env true) (default_read_keeps_selected_reg true)
    (default_write_keeps_selected_reg true) 1
    (write_seq pins_low (fun _ => pins_low) (fun _ => 0) pins_idle 3 0x55 ++
      read_seq pins_low pins_low (fun _ => pins_low) (fun _ => 0) 3)
    reset_machine

/-- C14: postcondition of `i2c_init`.  The state is `IDLE`; in `DDRB` the DDSCL bit is
set, the DDSDA bit clear and every other bit unchanged; in `PORTB` the PSCL and PSDA
bits are set and every other bit unchanged; `USICR` is exactly
`(1<<USISIE)|(1<<USIOIE)|(1<<USIWM1)|(1<<USIWM0)|(1<<USICS1)`; `selected_reg` and the
registers are unchanged. -/
theorem i2c_init_postcondition (m : Machine) :
    (i2c_init m).i2c = IDLE ∧
      (∀ k : Fin 8, (i2c_init m).DDRB.testBit k.val =
        if k.val = DDSCL then true else if k.val = DDSDA then false
        else m.DDRB.testBit k.val) ∧
      (∀ k : Fin 8, (i2c_init m).PORTB.testBit k.val =
        if k.val = PSCL ∨ k.val = PSDA then true else m.PORTB.testBit k.val) ∧
      (i2c_init m).USICR = (1 <<< USISIE) ||| (1 <<< USIOIE) ||| (1 <<< USIWM1) |||
        (1 <<< USIWM0) ||| (1 <<< USICS1) ∧
      (i2c_init m).USICR = 0xF8 ∧
      (i2c_init m).selected_reg = m.selected_reg ∧ (i2c_init m).registers = m.registers := by
  refine ⟨rfl, ?_, ?_, by simp only [i2c_init]; decide, by simp only [i2c_init]; decide, rfl, rfl⟩
  · intro k
    show (clearBit8 (setBit8 m.DDRB DDSCL) DDSDA).testBit k.val = _
    rw [clearBit8_testBit, setBit8_testBit]
    have hne : DDSCL ≠ DDSDA := by decide
    by_cases h2 : k.val = DDSCL
    · have : k.val ≠ DDSDA := by rw [h2]; exact hne
      simp [h2, this, hne]
    · by_cases h0 : k.val = DDSDA
      · simp [h0, hne.symm]
      · simp [h2, h0]
  · intro k
    have h : (i2c_init m).PORTB = (m.PORTB ||| 5) % 2 ^ 8 := rfl
    have h5 : ∀ j : Fin 8, Nat.testBit 5 j.val = decide (j.val = PSCL ∨ j.val = PSDA) := by
      decide
    rw [h, Nat.testBit_mod_two_pow, Nat.testBit_or, h5 k]
    have hk := k.isLt
    by_cases hc : k.val = PSCL ∨ k.val = PSDA <;> simp [hc, hk]

/-- C15 (code diverges): for every sampled value `p` the condition of the first wait
loop, `!PINB & (1<<PINSCL)`, is 0, also when the clock bit of `p` is 0 (as for
`p = 0`); and the condition of the second loop, `PINB & (1<<PINSCL) && !PINB &
(1<<PINSDA)`, is false on `p`, also when the clock bit is 1 and the data bit 0 (as
for `p = 4`). -/
theorem polling_conditions_misparsed (p : Nat) :
    wait_rise_cond p = 0 ∧ (poll_cond_lhs p = 0 ∨ poll_cond_rhs p = 0) ∧
      ((0 : Nat).testBit PINSCL = false ∧ wait_rise_cond 0 = 0) ∧
      ((4 : Nat).testBit PINSCL = true ∧ (4 : Nat).testBit PINSDA = false ∧
        poll_cond_lhs 4 ≠ 0 ∧ poll_cond_rhs 4 = 0) := by
  refine ⟨wait_rise_cond_zero p, ?_, ⟨by decide, by decide⟩, by decide, by decide, by decide,
    by decide⟩
  by_cases h : p = 0
  · left
    subst h
    decide
  · right
    simp [poll_cond_rhs, c_not, h]

/-- C16: address matching looks only at the top 7 bits.  In `SEQ_STARTED` and in
`SEQ_RESTARTED`, USI_OVF on the bytes `b` and `b XOR 1` returns with the same state,
the same `DDRB`, the same `last_addr_seen` and the same logged calls; the byte is
acknowledged (state `ACKING_ADDRESS` resp. `ACKING_READ_REQUEST`, DDSDA set, `i2c_ack`
called) iff `b >> 1 = 0x2a`, that is iff `b` is 0x54 or 0x55, and otherwise the state
is `IDLE` with nothing driven or called. -/
theorem address_match_ignores_direction (env : Env) (fuel : Nat) (m : Machine) (b : Nat)
    (hb : b < 256) (hst : m.i2c = SEQ_STARTED ∨ m.i2c = SEQ_RESTARTED)
    (p p2 : Nat → Nat) :
    ∃ m1 m2, step env fuel (.ovf b p) m = .returned m1 ∧
      step env fuel (.ovf (b ^^^ 1) p2) m = .returned m2 ∧
      m1.i2c = m2.i2c ∧ m1.DDRB = m2.DDRB ∧ m1.last_addr_seen = m2.last_addr_seen ∧
      m1.calls = m2.calls ∧
      ((m1.i2c = (if m.i2c = SEQ_STARTED then ACKING_ADDRESS else ACKING_READ_REQUEST) ∧
          m1.DDRB.testBit DDSDA = true ∧ m1.calls = m.calls ++ [Call.ack]) ↔
        b >>> 1 = myaddr) ∧
      (b >>> 1 ≠ myaddr → m1.i2c = IDLE ∧ m1.DDRB = m.DDRB ∧ m1.calls = m.calls) ∧
      (b >>> 1 = myaddr ↔ b = 0x54 ∨ b = 0x55) := by
  have hb256 : b % 256 = b := Nat.mod_eq_of_lt hb
  have hx256 : (b ^^^ 1) % 256 = b ^^^ 1 := Nat.mod_eq_of_lt (xor_one_lt hb)
  have hx := xor_one_shiftRight b
  by_cases ha : b >>> 1 = myaddr
  · rcases hst with hst | hst <;>
      simp [step, USI_OVF_vect, hst, hb256, hx256, hx, ha, ack_ovf, i2c_ack,
        testBit_setBit8_self, (shiftRight_one_eq_myaddr_iff b).mp ha]
  · have hne : ¬(b = 0x54 ∨ b = 0x55) := fun h => ha ((shiftRight_one_eq_myaddr_iff b).mpr h)
    rcases hst with hst | hst <;>
      simp [step, USI_OVF_vect, hst, hb256, hx256, hx, ha, ack_ovf, hne]

/-- C16 witness: the bytes 0x54 and 0x55 in `SEQ_STARTED`. -/
theorem address_match_ignores_direction_witness :
    ∃ m1 m2, step (default_env true) 1 (.ovf 0x54 pins_low)
        { reset_machine with i2c := SEQ_STARTED } = .returned m1 ∧
      step (default_env true) 1 (.ovf (0x54 ^^^ 1) pins_low)
        { reset_machine with i2c := SEQ_STARTED } = .returned m2 ∧
      m1.i2c = m2.i2c ∧ m1.DDRB = m2.DDRB ∧ m1.last_addr_seen = m2.last_addr_seen ∧
      m1.calls = m2.calls ∧
      ((m1.i2c = (if SEQ_STARTED = SEQ_STARTED then ACKING_ADDRESS else ACKING_READ_REQUEST) ∧
          m1.DDRB.testBit DDSDA = true ∧ m1.calls = [] ++ [Call.ack]) ↔
        0x54 >>> 1 = myaddr) ∧
      (0x54 >>> 1 ≠ myaddr → m1.i2c = IDLE ∧ m1.DDRB = 0 ∧ m1.calls = []) ∧
      (0x54 >>> 1 = myaddr ↔ 0x54 = 0x54 ∨ 0x54 = 0x55) :=
  address_match_ignores_direction (default_env true) 1
    { reset_machine with i2c := SEQ_STARTED } 0x54 (by decide) (Or.inl rfl) pins_low pins_low

/-- C17: the clock-settle wait of USI_START on a stream of `PINB` samples.  If some
sample has the clock bit 0, then with `n` the index of the first such sample: given
fuel for more than `n` samples the handler returns having consumed exactly the
samples `0..n`, with SDA released and `USISR` written; while it has consumed at most
`n` samples it is still in the loop with `DDRB` and `USISR` untouched.  If the clock
bit is 1 in every sample it is in the loop for every fuel and never writes `USISR`. -/
theorem clock_settle_wait (pins : Nat → Nat) (m : Machine) :
    (∀ i, pins i % 256 &&& (1 <<< PINSCL) = 0 →
      ∃ n, n ≤ i ∧ pins n % 256 &&& (1 <<< PINSCL) = 0 ∧
        (∀ j, j < n → pins j % 256 &&& (1 <<< PINSCL) ≠ 0) ∧
        (∀ fuel, n < fuel → ∃ m1, USI_START_vect fuel pins m = .returned m1 ∧
          m1.pinb_reads = n + 1 ∧ m1.DDRB = clearBit8 m.DDRB DDSDA ∧
          m1.USISR = (1 <<< USISIF) ||| (1 <<< USIOIF) ||| (1 <<< USIPF)) ∧
        (∀ fuel, fuel ≤ n → ∃ m1, USI_START_vect fuel pins m = .spinning m1 ∧
          m1.pinb_reads = fuel ∧ m1.DDRB = m.DDRB ∧ m1.USISR = m.USISR)) ∧
    ((∀ i, pins i % 256 &&& (1 <<< PINSCL) ≠ 0) →
      ∀ fuel, ∃ m1, USI_START_vect fuel pins m = .spinning m1 ∧
        m1.pinb_reads = fuel ∧ m1.DDRB = m.DDRB ∧ m1.USISR = m.USISR) := by
  have hsw := start_switch_frame { m with pinb_reads := 0 }
  have hspin : ∀ fuel, (∀ j, j < fuel → pins j % 256 &&& (1 <<< PINSCL) ≠ 0) →
      ∃ m1, USI_START_vect fuel pins m = .spinning m1 ∧
        m1.pinb_reads = fuel ∧ m1.DDRB = m.DDRB ∧ m1.USISR = m.USISR := by
    intro fuel h
    have h2 : ∀ j, j < fuel →
        pins ((start_switch { m with pinb_reads := 0 }).pinb_reads + j) % 256 &&&
          (1 <<< PINSCL) ≠ 0 := by
      intro j hj
      rw [hsw.2.2]
      simpa using h j hj
    refine ⟨{ start_switch { m with pinb_reads := 0 } with
        pinb_reads := (start_switch { m with pinb_reads := 0 }).pinb_reads + fuel }, ?_, ?_, ?_, ?_⟩
    · rw [USI_START_vect, scl_settle_spins pins fuel _ h2]
      rfl
    · simp [hsw.2.2]
    · exact hsw.1
    · exact hsw.2.1
  constructor
  · intro i hi
    obtain ⟨k, hki, hklow, hkhigh, hrun⟩ := scl_settle_spec pins (i + 1) 0 i (by omega)
      (by simpa using hi)
    refine ⟨k, hki, by simpa using hklow, fun j hj => by simpa using hkhigh j hj, ?_, ?_⟩
    · intro fuel hf
      obtain ⟨k2, hk2i, hk2low, hk2high, hrun2⟩ := scl_settle_spec pins fuel 0 k hf hklow
      have hkk : k2 = k := by
        rcases Nat.lt_trichotomy k2 k with h | h | h
        · exact absurd hk2low (hkhigh k2 h)
        · exact h
        · omega
      subst hkk
      refine ⟨start_finish { start_switch { m with pinb_reads := 0 } with
          pinb_reads := 0 + k2 + 1 }, ?_, ?_, ?_, ?_⟩
      · rw [USI_START_vect, hrun2 _ hsw.2.2]
        rfl
      · simp [start_finish]
      · simp [start_finish, hsw.1]
      · simp only [start_finish]
        decide
    · intro fuel hf
      exact hspin fuel (fun j hj => by simpa using hkhigh j (by omega))
  · intro h fuel
    exact hspin fuel (fun j _ => h j)

/-- C17 witness: the clock sampled high twice and then low; and the clock high in
every sample. -/
theorem clock_settle_wait_witness :
    (∃ n, n ≤ 5 ∧ (fun i => if i < 2 then 4 else 0) n % 256 &&& (1 <<< PINSCL) = 0 ∧
        (∀ j, j < n → (fun i => if i < 2 then 4 else 0) j % 256 &&& (1 <<< PINSCL) ≠ 0) ∧
        (∀ fuel, n < fuel → ∃ m1,
          USI_START_vect fuel (fun i => if i < 2 then 4 else 0) reset_machine = .returned m1 ∧
          m1.pinb_reads = n + 1 ∧ m1.DDRB = clearBit8 reset_machine.DDRB DDSDA ∧
          m1.USISR = (1 <<< USISIF) ||| (1 <<< USIOIF) ||| (1 <<< USIPF)) ∧
        (∀ fuel, fuel ≤ n → ∃ m1,
          USI_START_vect fuel (fun i => if i < 2 then 4 else 0) reset_machine = .spinning m1 ∧
          m1.pinb_reads = fuel ∧ m1.DDRB = reset_machine.DDRB ∧
          m1.USISR = reset_machine.USISR)) ∧
    (∀ fuel, ∃ m1, USI_START_vect fuel (fun _ => 4) reset_machine = .spinning m1 ∧
        m1.pinb_reads = fuel ∧ m1.DDRB = reset_machine.DDRB ∧
        m1.USISR = reset_machine.USISR) :=
  ⟨(clock_settle_wait (fun i => if i < 2 then 4 else 0) reset_machine).1 5 (by decide),
    (clock_settle_wait (fun _ => 4) reset_machine).2 (fun _ => by decide)⟩

/-- C18: the slave never drives the data line while idle or receiving.  In every state
left by a returned sequence of USI_START and USI_OVF events run from the state left by
`i2c_init`, for any hooks: if the DDSDA bit of `DDRB` is set the state is one of
`ACKING_ADDRESS`, `ACKING_REGISTER_SELECT`, `ACKING_WRITE`, `ACKING_READ_REQUEST`,
`WRITING`; and DDSDA is clear whenever the state is `IDLE`, `SEQ_STARTED`,
`SEQ_RESTARTED`, `REGISTER_SELECT`, `READING_WRITE`, `READING_ACK` or `NACKING`. -/
theorem sda_released_unless_driving (env : Env) (fuel : Nat) (es : List Event)
    (m0 m1 : Machine) (h : run env fuel es (i2c_init m0) = .returned m1) :
    (m1.DDRB.testBit DDSDA = true → drives_sda m1.i2c = true) ∧
      (listens m1.i2c = true → m1.DDRB.testBit DDSDA = false) := by
  have h0 : (i2c_init m0).DDRB.testBit DDSDA = true → drives_sda (i2c_init m0).i2c = true := by
    intro h2
    have : (i2c_init m0).DDRB.testBit DDSDA = false :=
      testBit_clearBit8_self (setBit8 m0.DDRB DDSCL)
    rw [this] at h2
    exact absurd h2 (by decide)
  have hinv := run_sda_inv env fuel es (i2c_init m0) m1 h0 h
  refine ⟨hinv, ?_⟩
  intro hl
  have hnd := listens_not_drives m1.i2c hl
  cases hb : m1.DDRB.testBit DDSDA with
  | false => rfl
  | true =>
    rw [hinv hb] at hnd
    exact absurd hnd (by decide)

/-- C18 witness: `i2c_init` on the reset state, then a WRITE to register 3 and a READ. -/
theorem sda_released_unless_driving_witness :
    ∃ m1, run (default_env true) 1
        (write_seq pins_low (fun _ => pins_low) (fun _ => 0) pins_idle 3 0x55 ++
          read_seq pins_low pins_low (fun _ => pins_low) (fun _ => 0) 3)
        (i2c_init reset_machine) = .returned m1 ∧
      (m1.DDRB.testBit DDSDA = true → drives_sda m1.i2c = true) ∧
      (listens m1.i2c = true → m1.DDRB.testBit DDSDA = false) :=
  ⟨_, rfl, sda_released_unless_driving (default_env true) 1
    (write_seq pins_low (fun _ => pins_low) (fun _ => 0) pins_idle 3 0x55 ++
      read_seq pins_low pins_low (fun _ => pins_low) (fun _ => 0) 3)
    reset_machine _ rfl⟩

/-- C19: the default hooks preserve every byte through the `char` parameter.  For
`selected_reg < 8` and every byte `v`, whether `char` is signed or not,
`default_handle_write` applied to `v` converted to `char` followed by
`default_handle_read` returns `v`; the write changes no slot other than
`registers[selected_reg & 7]`, which is slot `selected_reg`; and the same holds for
the byte delivered by USI_OVF in `READING_WRITE`. -/
theorem default_hooks_preserve_byte (cs : Bool) (m : Machine) (v : Nat) (hv : v < 256)
    (hsel : m.selected_reg < 8) (fuel : Nat) (p : Nat → Nat) :
    (default_handle_read (default_handle_write (to_char cs v) m)).1 = v ∧
      (∀ j : Fin 8, j ≠ reg_index m →
        (default_handle_write (to_char cs v) m).registers j = m.registers j) ∧
      (reg_index m).val = m.selected_reg ∧
      ∃ m1, step (default_env cs) fuel (.ovf v p) { m with i2c := READING_WRITE }
          = .returned m1 ∧
        (default_handle_read m1).1 = v ∧
        ∀ j : Fin 8, j ≠ reg_index m → m1.registers j = m.registers j := by
  have hv256 : v % 256 = v := Nat.mod_eq_of_lt hv
  refine ⟨?_, ?_, and_seven_of_lt hsel, ?_⟩
  · simp [default_handle_read, default_handle_write, reg_index, to_uint8_to_char, hv256]
  · intro j hj
    simp [default_handle_write, Function.update_noteq hj]
  · refine ⟨_, rfl, ?_, ?_⟩
    · simp [default_handle_read, default_handle_write, default_env, reg_index, ack_ovf, i2c_ack,
        to_uint8_to_char, hv256]
    · intro j hj
      have hj2 : j ≠ reg_index { m with USIDR := v % 256, pinb_reads := 0, i2c := READING_WRITE } :=
        hj
      simp [default_handle_write, default_env, ack_ovf, i2c_ack, Function.update_noteq hj2]

/-- C19 witness: byte 200 (not a signed char value) with signed `char`, register 5. -/
theorem default_hooks_preserve_byte_witness :
    (default_handle_read (default_handle_write (to_char true 200)
        { reset_machine with selected_reg := 5 })).1 = 200 ∧
      (∀ j : Fin 8, j ≠ reg_index { reset_machine with selected_reg := 5 } →
        (default_handle_write (to_char true 200)
          { reset_machine with selected_reg := 5 }).registers j = reset_machine.registers j) ∧
      (reg_index { reset_machine with selected_reg := 5 }).val = 5 ∧
      ∃ m1, step (default_env true) 1 (.ovf 200 pins_low)
          { reset_machine with selected_reg := 5, i2c := READING_WRITE } = .returned m1 ∧
        (default_handle_read m1).1 = 200 ∧
        ∀ j : Fin 8, j ≠ reg_index { reset_machine with selected_reg := 5 } →
          m1.registers j = reset_machine.registers j :=
  default_hooks_preserve_byte true { reset_machine with selected_reg := 5 } 200 (by decide)
    (by decide) 1 pins_low

/-- C20: a multi-byte read repeats one register and changes nothing.  With the default
hooks, starting in `ACKING_READ_REQUEST` with `selected_reg < 8`, after the entry
overflow and `j` acknowledged rounds the value loaded into `USIDR` is
`registers[selected_reg]`, the read-provider has been called `j + 1` times, each time
with the same `selected_reg` and the same result, and `registers` and `selected_reg`
are unchanged; they are unchanged as well after the round that ends with a NACK. -/
theorem multi_byte_read_repeats_register (cs : Bool) (fuel : Nat) (m : Machine)
    (hst : m.i2c = ACKING_READ_REQUEST) (hsel : m.selected_reg < 8)
    (hbyte : ∀ j : Fin 8, m.registers j < 256) (d0 : Nat) (p0 : Nat → Nat)
    (l : List (Nat × (Nat → Nat) × (Nat → Nat)))
    (w a : Nat) (pw pa : Nat → Nat) (ha : a % 256 ≠ 0) :
    (∀ j, j ≤ l.length →
      ∃ mj, run (default_env cs) fuel (.ovf d0 p0 :: ack_rounds (l.take j)) m = .returned mj ∧
        mj.i2c = WRITING ∧ mj.USIDR = m.registers ⟨m.selected_reg, hsel⟩ ∧
        mj.registers = m.registers ∧ mj.selected_reg = m.selected_reg ∧
        mj.calls = m.calls ++ List.replicate (j + 1)
          (Call.read m.selected_reg (m.registers ⟨m.selected_reg, hsel⟩))) ∧
    ∃ m1, run (default_env cs) fuel
        (.ovf d0 p0 :: (ack_rounds l ++ [.ovf w pw, .ovf a pa])) m = .returned m1 ∧
      m1.i2c = IDLE ∧ m1.registers = m.registers ∧ m1.selected_reg = m.selected_reg ∧
      read_calls m1.calls = read_calls m.calls + (l.length + 1) := by
  have hidx : reg_index m = ⟨m.selected_reg, hsel⟩ := by
    simp [reg_index, and_seven_of_lt hsel]
  have hmod : m.registers ⟨m.selected_reg, hsel⟩ % 256 = m.registers ⟨m.selected_reg, hsel⟩ :=
    Nat.mod_eq_of_lt (hbyte _)
  obtain ⟨a0, h0, h0i, h0u, h0r, h0s, h0c⟩ :=
    step_ovf_ACKING_READ_REQUEST_default cs fuel d0 p0 m hst
  have hidx0 : reg_index a0 = ⟨m.selected_reg, hsel⟩ := by
    rw [reg_index_congr h0s, hidx]
  have hu0 : a0.USIDR = a0.registers (reg_index a0) % 256 := by
    rw [h0u, h0r, hidx0, hidx]
  constructor
  · intro j hj
    obtain ⟨b, hb, hbi, hbu, hbr, hbs, hbc⟩ := ack_rounds_default cs fuel (l.take j) a0 h0i hu0
    refine ⟨b, ?_, hbi, ?_, ?_, ?_, ?_⟩
    · simp only [run, h0, Outcome.bind]
      exact hb
    · rw [hbu, h0r, hidx0, hmod]
    · rw [hbr, h0r]
    · rw [hbs, h0s]
    · rw [hbc, h0c, h0s, h0r, hidx0, hidx, List.length_take, Nat.min_eq_left hj,
        List.append_assoc, List.replicate_succ]
      rfl
  · obtain ⟨b, hb, hbi, hbu, hbr, hbs, hbc⟩ := ack_rounds_default cs fuel l a0 h0i hu0
    have hstep : ∃ m1, run (default_env cs) fuel [.ovf w pw, .ovf a pa] b = .returned m1 ∧
        m1.i2c = IDLE ∧ m1.registers = b.registers ∧ m1.selected_reg = b.selected_reg ∧
        m1.calls = b.calls := by
      simp [run, step, USI_OVF_vect, hbi, ack_ovf, Outcome.bind, ha]
    obtain ⟨c, hc, hci, hcr, hcs, hcc⟩ := hstep
    refine ⟨c, ?_, hci, ?_, ?_, ?_⟩
    · simp only [run, h0, Outcome.bind, run_append, hb]
      exact hc
    · rw [hcr, hbr, h0r]
    · rw [hcs, hbs, h0s]
    · rw [hcc, hbc, h0c]
      simp [read_calls, List.countP_append, List.countP_replicate]

/-- C20 witness: register 3 holding 0x55, two acknowledged bytes, then NACK. -/
theorem multi_byte_read_repeats_register_witness :
    (∀ j, j ≤ 2 →
      ∃ mj, run (default_env true) 1
          (.ovf 0 pins_low ::
            ack_rounds ([(0, pins_low, pins_low), (0, pins_low, pins_low)].take j))
          { reset_machine with i2c := ACKING_READ_REQUEST, selected_reg := 3,
                               registers := fun j => if j = 3 then 0x55 else 0 }
          = .returned mj ∧
        mj.i2c = WRITING ∧ mj.USIDR = 0x55 ∧
        mj.registers = (fun j => if j = 3 then 0x55 else 0) ∧ mj.selected_reg = 3 ∧
        mj.calls = [] ++ List.replicate (j + 1) (Call.read 3 0x55)) ∧
    ∃ m1, run (default_env true) 1
        (.ovf 0 pins_low ::
          (ack_rounds [(0, pins_low, pins_low), (0, pins_low, pins_low)] ++
            [.ovf 0 pins_low, .ovf 1 pins_low]))
        { reset_machine with i2c := ACKING_READ_REQUEST, selected_reg := 3,
                             registers := fun j => if j = 3 then 0x55 else 0 }
        = .returned m1 ∧
      m1.i2c = IDLE ∧ m1.registers = (fun j => if j = 3 then 0x55 else 0) ∧
      m1.selected_reg = 3 ∧ read_calls m1.calls = read_calls [] + (2 + 1) :=
  multi_byte_read_repeats_register true 1
    { reset_machine with i2c := ACKING_READ_REQUEST, selected_reg := 3,
                         registers := fun j => if j = 3 then 0x55 else 0 }
    rfl (by decide) (by decide) 0 pins_low
    [(0, pins_low, pins_low), (0, pins_low, pins_low)] 0 1 pins_low pins_low (by decide)



end AvrI2c
